import Mathlib

/-!
# GEMSrun rule-engine: shallow embedding and verification

This file embeds the core of GEMSrun's action/trigger/condition expression
engine in Lean 4 and proves (or refutes) the frozen specification claims
about it.  The embedding follows the Python source:

* `src/gemsrun/utils/safestrfunc.py` — expression parsing and the
  constant-value safety checker (`func_str_parts`, `get_param`,
  `remove_seq_boundaries`, `is_safe_value`);
* `src/gemsrun/gui/viewpanel.py` — the API vocabularies, `valid_api_call`,
  `safe_eval`, the variable conditions/actions (`VarValueIs`,
  `VarValueIsNot`, `_smart_compare`, `VarIncrease`, `VarDecrease`),
  the object mutators (`ShowObject`, `HideObject`, `AllowTake`,
  `DisallowTake`), `PortalTo`, and the timer scanner `start_timers`.

Modelling conventions:

* Python `str` values are Lean `String`s; character-level work happens on
  `List Char`.
* Python `float(...)` is modelled in full: underscore digit grouping, the
  signed case-insensitive `inf`/`infinity`/`nan` spellings, and rounding
  of the exact decimal value to the nearest IEEE-754 binary64 (with
  saturation to the infinities), carrying finite values as exact
  rationals (`ℚ`).
* Python dicts whose key structure never changes are modelled as
  association lists (`List (key × value)`); dict update mutates the entry
  for a key in place.
* Exceptions that escape a modelled function are `Option`/`Except`/
  pair-with-flag results; exceptions caught inside a function are
  ordinary branches.
-/

set_option maxRecDepth 200000

namespace GemsRun

/-! ## Small character/string utilities shared by the embeddings -/

/-- Python `\w` on ASCII input: letters, digits, or underscore. -/
def isWordChar (c : Char) : Bool :=
  c.isAlpha || c.isDigit || c = '_'

/-- Python `\s` on ASCII input. -/
def isSpaceChar (c : Char) : Bool :=
  c = ' ' || c = '\t' || c = '\n' || c = '\r' || c = '\x0b' || c = '\x0c'

/-- Python `str.strip()` on ASCII input: drop leading and trailing
whitespace. -/
def pyStrip (s : List Char) : List Char :=
  ((s.dropWhile isSpaceChar).reverse.dropWhile isSpaceChar).reverse

/-- `pyStrip` packaged on `String`. -/
def pyStripS (s : String) : String :=
  ⟨pyStrip s.toList⟩

/-! ## Python `float(...)` on strings

`float(s)` strips whitespace, then accepts `[sign]` followed by
`inf`/`infinity`/`nan` (case-insensitive) or a decimal literal
`digits [. digits] [(e|E) [sign] digits]` with at least one mantissa digit,
where each digit run may be grouped with single underscores (`"1_0"` is
`10.0`).  The exact decimal value is then rounded to the nearest IEEE-754
binary64 number (ties to even); magnitudes at or beyond `2 ^ 1024`
saturate to the infinities (`float("1e999")` is `inf`).  All rational
arithmetic below is phrased through `mkRat`/`Rat.num`/`Rat.den` so that
concrete instances evaluate inside the kernel. -/

/-- Numeric value of a digit run (most significant first). -/
def digitsVal (ds : List Char) : Nat :=
  ds.foldl (fun acc c => acc * 10 + (c.toNat - '0'.toNat)) 0

/-- Scan a digit run in which single underscores may separate digits
(Python's numeric-literal grouping).  Returns the digits with the
underscores removed, together with the rest of the input; `none` when an
underscore is not surrounded by digits on both sides, which `float`
rejects with a `ValueError` (`"1_"`, `"1__0"`).  The fuel argument covers
the input length. -/
def scanUDigitsF : Nat → List Char → Option (List Char × List Char)
  | 0, _ => none
  | _ + 1, [] => some ([], [])
  | fuel + 1, c :: rest =>
      if c.isDigit then
        match rest with
        | '_' :: rest' =>
            (match rest' with
             | d :: _ =>
                 if d.isDigit then
                   match scanUDigitsF fuel rest' with
                   | none => none
                   | some (ds, r) => some (c :: ds, r)
                 else none
             | [] => none)
        | _ =>
            match scanUDigitsF fuel rest with
            | none => none
            | some (ds, r) => some (c :: ds, r)
      else some ([], c :: rest)

/-- `scanUDigitsF` with fuel covering the input. -/
def scanUDigits (cs : List Char) : Option (List Char × List Char) :=
  scanUDigitsF (cs.length + 1) cs

/-- Parse the exponent part after `e`/`E`: `[sign] digits`, at least one
digit, nothing after. -/
def parseExpPart (cs : List Char) : Option Int :=
  let (sgn, cs') :=
    match cs with
    | '+' :: rest => ((1 : Int), rest)
    | '-' :: rest => ((-1 : Int), rest)
    | _ => ((1 : Int), cs)
  match scanUDigits cs' with
  | none => none
  | some (ds, rest) =>
      if ds = [] ∨ rest ≠ [] then none
      else some (sgn * (digitsVal ds : Int))

/-- The exact rational `m / 10 ^ k` scaled by `10 ^ e`. -/
def decimalToRat (m : Nat) (k : Nat) (e : Int) : ℚ :=
  let e' : Int := e - (k : Int)
  if 0 ≤ e' then mkRat ((m : Int) * ((10 : Nat) ^ e'.toNat : Nat)) 1
  else mkRat (m : Int) ((10 : Nat) ^ (-e').toNat)

/-- Exact rational subtraction, phrased through `mkRat` so that concrete
instances evaluate inside the kernel. -/
def qSub (a b : ℚ) : ℚ :=
  mkRat (a.num * b.den - b.num * a.den) (a.den * b.den)

/-- The fractional-digit run after an optional decimal point. -/
def scanFracPart : List Char → Option (List Char × List Char)
  | '.' :: rest => scanUDigits rest
  | cs => some ([], cs)

/-- Parse the mantissa-and-exponent of a Python float literal (sign already
removed) as its exact rational value: `digits [. digits] [(e|E) exp]`, at
least one mantissa digit, underscore grouping allowed in every digit
run. -/
def parseMantissa (cs : List Char) : Option ℚ :=
  match scanUDigits cs with
  | none => none
  | some (intDs, cs₁) =>
      match scanFracPart cs₁ with
      | none => none
      | some (fracDs, cs₂) =>
          if intDs = [] ∧ fracDs = [] then none
          else
            let m := digitsVal intDs * 10 ^ fracDs.length + digitsVal fracDs
            match cs₂ with
            | [] => some (decimalToRat m fracDs.length 0)
            | 'e' :: rest => (parseExpPart rest).map (decimalToRat m fracDs.length)
            | 'E' :: rest => (parseExpPart rest).map (decimalToRat m fracDs.length)
            | _ => none

/-- A CPython `float`: a finite value (carried as the exact rational value
of the IEEE-754 binary64 number), an infinity, or a NaN. -/
inductive PyFloat where
  | finite : ℚ → PyFloat
  | inf : PyFloat
  | negInf : PyFloat
  | nan : PyFloat
  deriving DecidableEq

/-- `⌊log₂ n⌋` by explicit fuel (exact for `n < 2 ^ fuel`; the fuel is
consumed one unit per halving, so evaluation cost is the actual bit
length). -/
def natLog2F : Nat → Nat → Nat
  | 0, _ => 0
  | fuel + 1, n => if n ≤ 1 then 0 else natLog2F fuel (n / 2) + 1

/-- `2 ^ e` as a rational. -/
def qPow2 (e : Int) : ℚ :=
  if 0 ≤ e then mkRat ((2 ^ e.toNat : Nat) : Int) 1
  else mkRat 1 (2 ^ (-e).toNat)

/-- `q * 2 ^ e`, phrased through `mkRat`. -/
def qMulPow2 (q : ℚ) (e : Int) : ℚ :=
  if 0 ≤ e then mkRat (q.num * ((2 ^ e.toNat : Nat) : Int)) q.den
  else mkRat q.num (q.den * 2 ^ (-e).toNat)

/-- `|q|`, phrased through `mkRat`. -/
def qAbs (q : ℚ) : ℚ := mkRat (q.num.natAbs : Int) q.den

/-- `-q`, phrased through `mkRat`. -/
def qNegQ (q : ℚ) : ℚ := mkRat (-q.num) q.den

/-- `⌊log₂ a⌋` for `a > 0`: estimate from the numerator and denominator
bit lengths, then correct by direct comparison (the estimate is off by at
most one). -/
def floorLog2Q (a : ℚ) : Int :=
  let e0 : Int :=
    (natLog2F 1000000 a.num.natAbs : Int) - (natLog2F 1000000 a.den : Int)
  if qPow2 (e0 + 1) ≤ a then e0 + 1
  else if qPow2 e0 ≤ a then e0
  else e0 - 1

/-- Round `x ≥ 0` to the nearest integer, ties to even. -/
def roundHalfEvenQ (x : ℚ) : Int :=
  let p := x.num
  let d : Int := (x.den : Int)
  let n := p / d
  let r := p % d
  if 2 * r < d then n
  else if d < 2 * r then n + 1
  else if n % 2 = 0 then n else n + 1

/-- Round an exact rational to the nearest IEEE-754 binary64 value
(round-to-nearest, ties-to-even) — the conversion CPython's
`float(<decimal string>)` performs.  Finite results (normal and subnormal
alike) are returned as their exact rational values; magnitudes that round
to `2 ^ 1024` or beyond saturate to the infinities, and magnitudes that
round below the smallest subnormal collapse to zero. -/
def roundDouble (q : ℚ) : PyFloat :=
  if q = 0 then .finite 0
  else
    let a := qAbs q
    if qPow2 1024 ≤ a then (if q.num < 0 then .negInf else .inf)
    else if a ≤ qPow2 (-1076) then .finite 0
    else
      let e := floorLog2Q a
      let scale : Int := max (e - 52) (-1074)
      let m := roundHalfEvenQ (qMulPow2 a (-scale))
      if m = 0 then .finite 0
      else
        let v := qMulPow2 (mkRat m 1) scale
        if qPow2 1024 ≤ v then (if q.num < 0 then .negInf else .inf)
        else .finite (if q.num < 0 then qNegQ v else v)

/-- Python `float(s)`: strip whitespace, accept an optional sign followed
by `inf`/`infinity`/`nan` (case-insensitive) or a decimal literal, and
round the exact decimal value to the nearest binary64.  `none` where
Python raises `ValueError`. -/
def pyFloat (s : String) : Option PyFloat :=
  let t := pyStrip s.toList
  let (neg, t₁) :=
    match t with
    | '+' :: rest => (false, rest)
    | '-' :: rest => (true, rest)
    | _ => (false, t)
  let low := t₁.map Char.toLower
  if low = ['i', 'n', 'f'] ∨ low = ['i', 'n', 'f', 'i', 'n', 'i', 't', 'y'] then
    some (if neg then .negInf else .inf)
  else if low = ['n', 'a', 'n'] then some .nan
  else
    (parseMantissa t₁).map (fun q => roundDouble (if neg then qNegQ q else q))

/-- IEEE-754 `==` on floats: NaN compares unequal to everything (itself
included), infinities compare by sign, finite values compare exactly. -/
def pyFloatEq : PyFloat → PyFloat → Bool
  | .finite a, .finite b => a = b
  | .inf, .inf => true
  | .negInf, .negInf => true
  | _, _ => false

/-- The finite-value projection of `pyFloat`.  `start_timers` feeds the
parsed seconds straight into `int(remaining_time * 1000)`, which raises
(`OverflowError` on the infinities, `ValueError` on NaN) just as a failed
parse raises `ValueError`; either exception escapes `start_timers`, so the
crash path of the timer scan is `none` here. -/
def pyFloatQ (s : String) : Option ℚ :=
  match pyFloat s with
  | some (.finite q) => some q
  | _ => none

/-- `10 ^ e` as a rational. -/
def qPow10 (e : Int) : ℚ :=
  if 0 ≤ e then mkRat ((10 ^ e.toNat : Nat) : Int) 1
  else mkRat 1 (10 ^ (-e).toNat)

/-- `q * 10 ^ e`, phrased through `mkRat`. -/
def qMulPow10 (q : ℚ) (e : Int) : ℚ :=
  if 0 ≤ e then mkRat (q.num * ((10 ^ e.toNat : Nat) : Int)) q.den
  else mkRat q.num (q.den * 10 ^ (-e).toNat)

/-- `⌊log₁₀ n⌋` by explicit fuel. -/
def natLog10F : Nat → Nat → Nat
  | 0, _ => 0
  | fuel + 1, n => if n ≤ 9 then 0 else natLog10F fuel (n / 10) + 1

/-- `⌊log₁₀ a⌋` for `a > 0`: estimate from the digit counts, then correct
by direct comparison (the estimate is off by at most one). -/
def floorLog10Q (a : ℚ) : Int :=
  let e0 : Int :=
    (natLog10F 10000 a.num.natAbs : Int) - (natLog10F 10000 a.den : Int)
  if qPow10 (e0 + 1) ≤ a then e0 + 1
  else if qPow10 e0 ≤ a then e0
  else e0 - 1

/-- Nearest `k`-significant-digit decimal to `a > 0` (ties to even):
the digit block `m` (`10 ^ (k-1) ≤ m < 10 ^ k`) and the exponent `ex`
with value `m * 10 ^ ex`. -/
def sigRound (a : ℚ) (k : Nat) : Int × Int :=
  let e10 := floorLog10Q a
  let ex := e10 - (k : Int) + 1
  let m := roundHalfEvenQ (qMulPow10 a (-ex))
  if m = ((10 ^ k : Nat) : Int) then (((10 ^ (k - 1) : Nat) : Int), ex + 1)
  else (m, ex)

/-- The nearest `k`-digit decimal for the smallest `k` that reads back as
the double `a` (17 significant digits always round-trip, so the fuel is
started at 16 with `k = 1`). -/
def shortestSig (a : ℚ) : Nat → Nat → Int × Int
  | k, 0 => sigRound a k
  | k, fuel + 1 =>
      let (m, ex) := sigRound a k
      if roundDouble (qMulPow10 (mkRat m 1) ex) = .finite a then (m, ex)
      else shortestSig a (k + 1) fuel

/-- Python `str(f)`/`repr(f)` of a finite double: the shortest decimal
string that reads back as the same double (chosen nearest the value), in
fixed notation for decimal exponents in `[-4, 16)` and scientific
notation otherwise (`str(3.5) = "3.5"`, `str(4.0) = "4.0"`,
`str(1e16) = "1e+16"`, `str(1e-5) = "1e-05"`). -/
def pyFloatRepr (q : ℚ) : String :=
  if q = 0 then "0.0"
  else
    let sgn := if q.num < 0 then "-" else ""
    let a := qAbs q
    let (m, ex) := shortestSig a 1 16
    let ds := (toString m.natAbs).toList
    let k : Int := (ds.length : Int)
    let e10 : Int := ex + k - 1
    if -4 ≤ e10 ∧ e10 < 16 then
      if 0 ≤ ex then
        sgn ++ ⟨ds⟩ ++ ⟨List.replicate ex.toNat '0'⟩ ++ ".0"
      else if 0 ≤ e10 then
        sgn ++ ⟨ds.take (e10 + 1).toNat⟩ ++ "." ++ ⟨ds.drop (e10 + 1).toNat⟩
      else
        sgn ++ "0." ++ ⟨List.replicate (-(e10 + 1)).toNat '0'⟩ ++ ⟨ds⟩
    else
      let mant :=
        (⟨[ds.headD '0']⟩ : String) ++
          (if 1 < ds.length then "." ++ (⟨ds.tail⟩ : String) else "")
      let es := toString e10.natAbs
      let epad := if es.length < 2 then "0" ++ es else es
      sgn ++ mant ++ "e" ++ (if e10 < 0 then "-" else "+") ++ epad

/-- Python `str(f)` over the full float type (`str(float("inf")) = "inf"`,
`str(float("nan")) = "nan"`). -/
def pyFloatStr : PyFloat → String
  | .finite q => pyFloatRepr q
  | .inf => "inf"
  | .negInf => "-inf"
  | .nan => "nan"

/-! ## The `Variables` store

`self.db.Variables` is a Python dict from variable names to string values.
It is modelled as an association list with unique keys; dict insertion of a
fresh key appends, assignment to an existing key updates in place. -/

/-- The user-variable store: name ↦ string value. -/
abbrev Vars := List (String × String)

/-- `vname in self.db.Variables`. -/
def varMem (vars : Vars) (vname : String) : Bool :=
  vars.any (fun p => p.1 = vname)

/-- `self.db.Variables[vname]` (first binding). -/
def varLookup (vars : Vars) (vname : String) : Option String :=
  match vars.find? (fun p => p.1 = vname) with
  | some p => some p.2
  | none => none

/-- `self.db.Variables[vname] = value`: update in place if the key is
present, else append a fresh binding. -/
def varSet (vars : Vars) (vname value : String) : Vars :=
  if varMem vars vname then
    vars.map (fun p => if p.1 = vname then (p.1, value) else p)
  else
    vars ++ [(vname, value)]

/-! ## `_smart_compare`, `VarValueIs`, `VarValueIsNot`
(viewpanel.py lines 1403–1433) -/

/-- `ViewPanel._smart_compare`: compare with the float `==` when both
strings convert with `float` (so `nan` values compare unequal even to
themselves, and `"inf"` equals `"INF"`), otherwise — a `ValueError` from
either conversion — fall back to string equality. -/
def smartCompare (val1 val2 : String) : Bool :=
  match pyFloat val1, pyFloat val2 with
  | some f1, some f2 => pyFloatEq f1 f2
  | _, _ => val1 = val2

/-- `ViewPanel.VarValueIs`: true iff the variable exists and its stored
value smart-compares equal to `value`. -/
def VarValueIs (vars : Vars) (vname value : String) : Bool :=
  varMem vars vname &&
    (match varLookup vars vname with
     | some stored => smartCompare stored value
     | none => false)

/-- `ViewPanel.VarValueIsNot`: true iff the variable does not exist or its
stored value does not smart-compare equal to `value`. -/
def VarValueIsNot (vars : Vars) (vname value : String) : Bool :=
  !varMem vars vname ||
    (match varLookup vars vname with
     | some stored => !smartCompare stored value
     | none => true)

/-! ## `VarIncrease` / `VarDecrease` (viewpanel.py lines 1672–1734)

Python's `numeric_value == int(numeric_value)` holds for a finite float
exactly when the (reduced) rational value is integral, i.e. its
denominator is 1, in which case `int(numeric_value)` is the numerator.
On an infinite float `int` raises `OverflowError`, which the inner
`except (ValueError, TypeError)` does not catch: the outer
`except Exception` logs the Invalid record and the store is left
unchanged.  On NaN `int` raises `ValueError`, which the inner handler
does catch, taking the same reset branch as a non-numeric value.
The non-integral branch stores `str(numeric_value ± 1)`: the float sum is
the rounded exact sum. -/

/-- `ViewPanel.VarIncrease`: on a stored value `float` accepts, add 1
(formatting whole values as integers); infinite stored values leave the
store unchanged (`OverflowError` from `int`, caught only by the outer
handler); NaN and non-numeric stored values reset to `"1"`, as does a
missing variable. -/
def VarIncrease (vars : Vars) (vname : String) : Vars :=
  if varMem vars vname then
    match varLookup vars vname with
    | some current =>
        match pyFloat current with
        | some (.finite q) =>
            if q.den = 1 then
              varSet vars vname (toString (q.num + 1))
            else
              varSet vars vname
                (pyFloatStr (roundDouble (mkRat (q.num + q.den) q.den)))
        | some .inf => vars
        | some .negInf => vars
        | some .nan => varSet vars vname "1"
        | none => varSet vars vname "1"
    | none => varSet vars vname "1"
  else varSet vars vname "1"

/-- `ViewPanel.VarDecrease`: on a stored value `float` accepts, subtract 1
(formatting whole values as integers); infinite stored values leave the
store unchanged; NaN and non-numeric stored values reset to `"0"`, as
does a missing variable. -/
def VarDecrease (vars : Vars) (vname : String) : Vars :=
  if varMem vars vname then
    match varLookup vars vname with
    | some current =>
        match pyFloat current with
        | some (.finite q) =>
            if q.den = 1 then
              varSet vars vname (toString (q.num - 1))
            else
              varSet vars vname
                (pyFloatStr (roundDouble (mkRat (q.num - q.den) q.den)))
        | some .inf => vars
        | some .negInf => vars
        | some .nan => varSet vars vname "0"
        | none => varSet vars vname "0"
    | none => varSet vars vname "0"
  else varSet vars vname "0"

/-! ## Expression-string parsing (`safestrfunc.py`)

`func_str_parts` splits a call string `Name(arg1, arg2, …)` into the name
and the raw argument strings.  Before matching, `[`/`]` outside quotes are
replaced by the sentinels `"(LEFT) ` / ` (RIGHT)"` (so that bracketed
variable specifiers inside quoted strings survive the comma split), and
the sentinels are turned back into brackets in each returned argument. -/

/-- `_replace_brackets_outside_quotes`: replace `[` and `]` with the given
replacement strings when they occur outside single/double-quoted
substrings; a backslash escapes the following character. -/
def replBrChars (leftRepl rightRepl : List Char) :
    List Char → Bool → Bool → List Char
  | [], _, _ => []
  | c :: rest, sq, dq =>
      if c = '\\' then
        match rest with
        | d :: rest' => c :: d :: replBrChars leftRepl rightRepl rest' sq dq
        | [] => [c]
      else if c = '"' ∧ ¬sq then c :: replBrChars leftRepl rightRepl rest sq (!dq)
      else if c = '\'' ∧ ¬dq then c :: replBrChars leftRepl rightRepl rest (!sq) dq
      else if c = '[' ∧ ¬sq ∧ ¬dq then leftRepl ++ replBrChars leftRepl rightRepl rest sq dq
      else if c = ']' ∧ ¬sq ∧ ¬dq then rightRepl ++ replBrChars leftRepl rightRepl rest sq dq
      else c :: replBrChars leftRepl rightRepl rest sq dq

/-- The fullmatch of `(\w+)\s*\((.*?)\)$`: a leading word run, optional
whitespace, `(`, any middle text not containing a newline, and a final `)`.
Returns the name and the middle text. -/
def matchFuncPattern (s : List Char) : Option (List Char × List Char) :=
  let fname := s.takeWhile isWordChar
  if fname = [] then none
  else
    match (s.dropWhile isWordChar).dropWhile isSpaceChar with
    | '(' :: rest =>
        match rest.reverse with
        | ')' :: revMid =>
            let middle := revMid.reverse
            if middle.contains '\n' then none else some (fname, middle)
        | _ => none
    | _ => none

/-- The split on `"[^"]*"(*SKIP)(*FAIL)|,\s*`: split on commas (dropping
the whitespace that follows a comma), skipping over complete double-quoted
substrings; a `"` with no matching close is an ordinary character. -/
def splitQAux : Nat → List Char → List Char → List (List Char)
  | 0, s, cur => [cur.reverse ++ s]
  | _ + 1, [], cur => [cur.reverse]
  | fuel + 1, c :: rest, cur =>
      if c = '"' then
        let inside := rest.takeWhile (fun d => d ≠ '"')
        match rest.dropWhile (fun d => d ≠ '"') with
        | '"' :: after => splitQAux fuel after ('"' :: (inside.reverse ++ ('"' :: cur)))
        | _ => splitQAux fuel rest ('"' :: cur)
      else if c = ',' then
        cur.reverse :: splitQAux fuel (rest.dropWhile isSpaceChar) []
      else splitQAux fuel rest (c :: cur)

/-- Split a parameter text on commas outside double quotes. -/
def splitOutsideQuotes (s : List Char) : List (List Char) :=
  splitQAux (s.length + 1) s []

/-- Python `str.replace(pat, rep)`: leftmost, non-overlapping. -/
def replaceSubF (pat rep : List Char) : Nat → List Char → List Char
  | 0, s => s
  | fuel + 1, s =>
      match s with
      | [] => []
      | c :: rest =>
          if pat.isPrefixOf s then rep ++ replaceSubF pat rep fuel (s.drop pat.length)
          else c :: replaceSubF pat rep fuel rest

/-- Python `str.replace` packaged on `String`. -/
def pyReplace (s pat rep : String) : String :=
  ⟨replaceSubF pat.toList rep.toList (s.length + 1) s.toList⟩

/-- `safestrfunc.func_str_parts`: the function name and raw parameter
strings of a call string, or `none` where the Python function raises
`ValueError`. -/
def func_str_parts (cmd : String) : Option (String × List String) :=
  let prepped := replBrChars "\"(LEFT) ".toList " (RIGHT)\"".toList (pyStrip cmd.toList) false false
  match matchFuncPattern prepped with
  | none => none
  | some (fn, middle) =>
      let items := splitOutsideQuotes middle
      some (⟨fn⟩, items.map (fun it => pyReplace (pyReplace ⟨it⟩ "\"(LEFT) " "[") " (RIGHT)\"" "]"))

/-- `safestrfunc.get_param`: strip a `name =` keyword prefix (the regex
`^ *\w+ *= *`, where the spaces are literal space characters) from a
stripped parameter string. -/
def get_param (p : String) : String :=
  let t := pyStrip p.toList
  let t₁ := t.dropWhile (fun c => c = ' ')
  let w := t₁.takeWhile isWordChar
  if w = [] then ⟨t⟩
  else
    match (t₁.dropWhile isWordChar).dropWhile (fun c => c = ' ') with
    | '=' :: r => ⟨r.dropWhile (fun c => c = ' ')⟩
    | _ => ⟨t⟩

/-! ## Python expression parsing for `is_safe_value`

`is_safe_value` calls `ast.parse` and inspects only the kind of the root
node of the (single) parsed expression.  The parser below models the
expression fragment of Python's grammar that the engine's argument
strings draw from: decimal int/float literals, single- and double-quoted
one-line strings (with `f`/`r`/`b`/`u` prefixes), `True`/`False`/`None`,
names, list/tuple/set displays, calls, attribute access, subscripts, and
unary/binary operators.  Outside the model (parse failure here, where
CPython would succeed): hex/octal/binary/underscored numerals, complex
literals, triple-quoted and implicitly concatenated strings, comprehensions,
lambdas, conditional expressions, starred and keyword arguments, and
non-expression statements. -/

/-- The kinds of Python AST nodes the checker distinguishes.  Payload
values of constants are irrelevant to the checker and are dropped. -/
inductive PyExpr where
  | const : PyExpr
  | nameE : String → PyExpr
  | call : PyExpr → List PyExpr → PyExpr
  | attr : PyExpr → PyExpr
  | subscript : PyExpr → PyExpr → PyExpr
  | listD : List PyExpr → PyExpr
  | tupleD : List PyExpr → PyExpr
  | setD : List PyExpr → PyExpr
  | unary : PyExpr → PyExpr
  | binop : PyExpr → PyExpr → PyExpr
  | fstring : PyExpr

/-- Python keywords that cannot begin an operand. -/
def pyKeywords : List String :=
  ["and", "or", "not", "in", "is", "if", "else", "elif", "lambda", "for",
   "while", "def", "class", "return", "yield", "await", "async", "import",
   "from", "pass", "break", "continue", "global", "nonlocal", "del",
   "raise", "try", "except", "finally", "with", "assert"]

/-- Skip whitespace. -/
def skipWs (cs : List Char) : List Char := cs.dropWhile isSpaceChar

/-- Scan a one-line Python string literal after its opening quote `q`;
returns the input following the closing quote. -/
def scanPyString (q : Char) : Nat → List Char → Option (List Char)
  | 0, _ => none
  | _ + 1, [] => none
  | fuel + 1, c :: rest =>
      if c = '\\' then
        match rest with
        | _ :: rest' => scanPyString q fuel rest'
        | [] => none
      else if c = q then some rest
      else if c = '\n' then none
      else scanPyString q fuel rest

/-- Scan `[sign] digits` of a numeric exponent starting after the `e`
(underscore grouping allowed, as in the tokenizer); if no digits follow,
the `e` (passed as `orig`) is left unconsumed and the caller's subsequent
parse fails, as CPython's tokenizer does. -/
def scanExpTail (orig rest : List Char) : List Char :=
  let rest₁ :=
    match rest with
    | '+' :: r => r
    | '-' :: r => r
    | _ => rest
  match scanUDigits rest₁ with
  | none => orig
  | some (ds, r) => if ds = [] then orig else r

/-- Scan a decimal int/float literal (first char is a digit or a dot
followed by a digit; digit runs may be grouped with single underscores);
returns the remaining input. -/
def scanNumber (cs : List Char) : Option (List Char) :=
  match scanUDigits cs with
  | none => none
  | some (intDs, cs₁) =>
      match scanFracPart cs₁ with
      | none => none
      | some (fracDs, cs₂) =>
          if intDs = [] ∧ fracDs = [] then none
          else
            match cs₂ with
            | 'e' :: rest => some (scanExpTail cs₂ rest)
            | 'E' :: rest => some (scanExpTail cs₂ rest)
            | _ => some cs₂

/-- Two-character binary/comparison operator spellings. -/
def twoCharOps : List (Char × Char) :=
  [('*', '*'), ('/', '/'), ('<', '<'), ('>', '>'), ('<', '='), ('>', '='),
   ('=', '='), ('!', '=')]

/-- One-character binary operator spellings. -/
def oneCharOps : List Char := ['+', '-', '*', '/', '%', '@', '&', '|', '^', '<', '>']

/-- Word-shaped binary operator spellings. -/
def wordOps : List String := ["and", "or", "in", "is"]

mutual

/-- Parse a single expression (no top-level commas). -/
def parseExprS : Nat → List Char → Option (PyExpr × List Char)
  | 0, _ => none
  | fuel + 1, cs => do
      let (e, r) ← parseOperand fuel cs
      parseBinRest fuel e r

/-- After a parsed operand, consume `op operand` pairs. -/
def parseBinRest : Nat → PyExpr → List Char → Option (PyExpr × List Char)
  | 0, _, _ => none
  | fuel + 1, e, cs =>
      let cs' := skipWs cs
      match cs' with
      | a :: b :: rest =>
          if (a, b) ∈ twoCharOps then do
            let (e₂, r) ← parseOperand fuel rest
            parseBinRest fuel (.binop e e₂) r
          else if a ∈ oneCharOps then do
            let (e₂, r) ← parseOperand fuel (b :: rest)
            parseBinRest fuel (.binop e e₂) r
          else
            let w := cs'.takeWhile isWordChar
            if (⟨w⟩ : String) ∈ wordOps then do
              let (e₂, r) ← parseOperand fuel (cs'.dropWhile isWordChar)
              parseBinRest fuel (.binop e e₂) r
            else some (e, cs)
      | [a] =>
          if a ∈ oneCharOps then none else some (e, cs)
      | [] => some (e, cs)

/-- Parse unary prefixes followed by an atom with its trailers. -/
def parseOperand : Nat → List Char → Option (PyExpr × List Char)
  | 0, _ => none
  | fuel + 1, cs =>
      let cs' := skipWs cs
      match cs' with
      | '-' :: rest => do
          let (e, r) ← parseOperand fuel rest
          some (.unary e, r)
      | '+' :: rest => do
          let (e, r) ← parseOperand fuel rest
          some (.unary e, r)
      | '~' :: rest => do
          let (e, r) ← parseOperand fuel rest
          some (.unary e, r)
      | _ =>
          let w := cs'.takeWhile isWordChar
          if (⟨w⟩ : String) = "not" then do
            let (e, r) ← parseOperand fuel (cs'.dropWhile isWordChar)
            some (.unary e, r)
          else do
            let (a, r) ← parseAtom fuel cs'
            parseTrailers fuel a r

/-- Parse one atom (input starts at a non-space character). -/
def parseAtom : Nat → List Char → Option (PyExpr × List Char)
  | 0, _ => none
  | fuel + 1, cs =>
      match cs with
      | [] => none
      | c :: rest =>
          if c.isDigit ∨ (c = '.' ∧ (rest.head?.map Char.isDigit).getD false) then
            (scanNumber cs).map (fun r => (.const, r))
          else if c = '"' ∨ c = '\'' then
            (scanPyString c fuel rest).map (fun r => (.const, r))
          else if c = '(' then do
            let (es, sawComma, r) ← parseElems fuel ')' rest
            match es, sawComma with
            | [e], false => some (e, r)
            | _, _ => some (.tupleD es, r)
          else if c = '[' then do
            let (es, _, r) ← parseElems fuel ']' rest
            some (.listD es, r)
          else if c = '\x7b' then do
            let (es, _, r) ← parseElems fuel '\x7d' rest
            some (.setD es, r)
          else if c.isAlpha ∨ c = '_' then
            let w := cs.takeWhile isWordChar
            let rest₂ := cs.dropWhile isWordChar
            let wS : String := ⟨w⟩
            if wS = "True" ∨ wS = "False" ∨ wS = "None" then
              some (.const, rest₂)
            else
              match rest₂ with
              | q :: rest₃ =>
                  if (q = '"' ∨ q = '\'') ∧ w.length ≤ 2 ∧
                      w.all (fun d => d ∈ (['f', 'F', 'r', 'R', 'b', 'B', 'u', 'U'] : List Char)) then
                    (scanPyString q fuel rest₃).map
                      (fun r => (if w.any (fun d => d = 'f' ∨ d = 'F') then .fstring else .const, r))
                  else if wS ∈ pyKeywords then none
                  else some (.nameE wS, rest₂)
              | [] =>
                  if wS ∈ pyKeywords then none
                  else some (.nameE wS, rest₂)
          else none

/-- Parse trailers (call, attribute, subscript) after an atom. -/
def parseTrailers : Nat → PyExpr → List Char → Option (PyExpr × List Char)
  | 0, _, _ => none
  | fuel + 1, e, cs =>
      let cs' := skipWs cs
      match cs' with
      | '(' :: rest => do
          let (es, _, r) ← parseElems fuel ')' rest
          parseTrailers fuel (.call e es) r
      | '.' :: rest =>
          let rest₁ := skipWs rest
          let w := rest₁.takeWhile isWordChar
          if w = [] then none
          else parseTrailers fuel (.attr e) (rest₁.dropWhile isWordChar)
      | '[' :: rest => do
          let (idx, r) ← parseExprS fuel rest
          match skipWs r with
          | ']' :: r₂ => parseTrailers fuel (.subscript e idx) r₂
          | _ => none
      | _ => some (e, cs)

/-- Parse a comma-separated element list up to (and through) the closing
character; reports whether any comma was seen. -/
def parseElems : Nat → Char → List Char → Option (List PyExpr × Bool × List Char)
  | 0, _, _ => none
  | fuel + 1, close, cs =>
      match skipWs cs with
      | [] => none
      | c :: rest =>
          if c = close then some ([], false, rest)
          else do
            let (e, r) ← parseExprS fuel (c :: rest)
            match skipWs r with
            | d :: r₂ =>
                if d = close then some ([e], false, r₂)
                else if d = ',' then do
                  let (es, _, r₃) ← parseElems fuel close r₂
                  some (e :: es, true, r₃)
                else none
            | [] => none

end

/-- Parse a whole source string as Python does for `ast.parse` restricted
to a single expression statement: a comma-separated expression list is a
tuple; a single expression is itself. -/
def pyParseExpr (s : String) : Option PyExpr :=
  let cs := skipWs s.toList
  if cs = [] then none
  else
    match parseTop (4 * cs.length + 16) cs with
    | none => none
    | some ([e], false) => some e
    | some (es, _) => some (.tupleD es)
where
  /-- Top-level comma-separated expression list terminated by end of
  input. -/
  parseTop : Nat → List Char → Option (List PyExpr × Bool)
    | 0, _ => none
    | fuel + 1, cs => do
        let (e, r) ← parseExprS fuel cs
        match skipWs r with
        | [] => some ([e], false)
        | ',' :: r₂ =>
            let r₃ := skipWs r₂
            if r₃ = [] then some ([e], true)
            else do
              let (es, _) ← parseTop fuel r₃
              some (e :: es, true)
        | _ => none

/-! ## The statement layer of `ast.parse` seen by `is_safe_value`

`is_safe_value` runs `ast.parse(value_str)` — whose grammar is the module
grammar, not just the expression grammar — and then projects
`tree.body[0].__dict__["value"]`.  Four outcomes matter to the checker:

* the parse raises `SyntaxError` (the only exception the checker catches);
* the parse succeeds with an **empty body** (a comment-only source such as
  `"#"`), so `tree.body[0]` raises an uncaught `IndexError`;
* the first statement's `__dict__` has **no `"value"` key** (`import os`,
  `del x`, `pass`, …), so the projection raises an uncaught `KeyError`;
* the projection yields a value: an expression node (from an expression
  statement or the right-hand side of an assignment chain), or a
  non-node value (`Return.value` is `None` for a bare `return`).

Modeled fragment: single-line sources (the call-argument strings the
engine feeds in never contain newlines) whose statement form is a
comment, an expression, a simple `=`-assignment chain with identifier
targets, or a simple/compound statement introduced by its keyword with a
well-formed remainder.  Augmented assignment, annotated assignment and
attribute/subscript assignment targets are outside the fragment. -/

/-- Outcome of `ast.parse` + `tree.body[0].__dict__["value"]`. -/
inductive StmtParse where
  | parseFail : StmtParse
  | emptyBody : StmtParse
  | noValue : StmtParse
  | valueOther : StmtParse
  | exprValue : PyExpr → StmtParse

/-- Simple statements whose AST node has no `value` field and which are
complete without a remainder (`pass`). -/
def bareStmtKeywords : List String := ["pass", "break", "continue"]

/-- Simple statements whose AST node has no `value` field and which demand
a remainder (`import os`, `del x`, `assert c`). -/
def simpleStmtKeywords : List String :=
  ["import", "from", "del", "global", "nonlocal", "assert"]

/-- Compound statements (no `value` field); their single-line forms carry
a colon (`if c: body`). -/
def compoundStmtKeywords : List String :=
  ["if", "while", "for", "with", "try", "def", "class", "async"]

/-- Keywords that can never begin a module (`else`, …): always a
`SyntaxError`. -/
def danglingStmtKeywords : List String := ["elif", "else", "except", "finally"]

/-- Classify a source whose first statement is an expression statement. -/
def stmtExprOf (s : String) : StmtParse :=
  match pyParseExpr s with
  | some e => .exprValue e
  | none => .parseFail

/-- The statement-level classification, with fuel for the recursion down
an assignment chain (`a = b = 3` has `value` the final right-hand side). -/
def pyParseStmtKindF : Nat → String → StmtParse
  | 0, _ => .parseFail
  | fuel + 1, s =>
      let t := pyStrip s.toList
      match t with
      | [] => .emptyBody
      | c :: _ =>
          if c = '#' then .emptyBody
          else
            let w : String := ⟨t.takeWhile isWordChar⟩
            let rest := (t.dropWhile isWordChar).dropWhile isSpaceChar
            if w ∈ bareStmtKeywords then
              (if rest = [] then .noValue else .parseFail)
            else if w ∈ simpleStmtKeywords then
              (if rest = [] then .parseFail else .noValue)
            else if w = "raise" then .noValue
            else if w ∈ compoundStmtKeywords then
              (if rest.contains ':' then .noValue else .parseFail)
            else if w ∈ danglingStmtKeywords then .parseFail
            else if w = "return" then
              (if rest = [] then .valueOther else stmtExprOf ⟨rest⟩)
            else if (c.isAlpha ∨ c = '_') ∧ w ∉ pyKeywords ∧
                w ≠ "True" ∧ w ≠ "False" ∧ w ≠ "None" then
              match rest with
              | '=' :: r2 =>
                  (match r2 with
                   | '=' :: _ => stmtExprOf s
                   | _ =>
                       match pyParseStmtKindF fuel ⟨r2⟩ with
                       | .exprValue e => .exprValue e
                       | _ => .parseFail)
              | _ => stmtExprOf s
            else stmtExprOf s

/-- The statement-level classification; each assignment step recurses on a
strict suffix, so `s.length + 1` fuel suffices. -/
def pyParseStmtKind (s : String) : StmtParse :=
  pyParseStmtKindF (s.length + 1) s

/-! ## `remove_seq_boundaries` and `is_safe_value` -/

/-- `safestrfunc.remove_seq_boundaries`: strip the string, then delete
every `[`, `]`, `(`, `)`, `{`, `}` character. -/
def remove_seq_boundaries (s : String) : String :=
  ⟨(pyStrip s.toList).filter
    (fun c => ¬(c ∈ (['[', ']', '(', ')', '\x7b', '\x7d'] : List Char)))⟩

/-- `List.splitOn`-style split of characters on one separator char. -/
def splitChar (sep : Char) : List Char → List Char → List (List Char)
  | [], cur => [cur.reverse]
  | c :: rest, cur =>
      if c = sep then cur.reverse :: splitChar sep rest []
      else splitChar sep rest (c :: cur)

/-- Drop trailing space characters. -/
def dropTrailSpaces (cs : List Char) : List Char :=
  (cs.reverse.dropWhile (fun c => c = ' ')).reverse

/-- Middle/final pieces of the `re.split(r" *, *", s)` decomposition:
every piece after the first loses its leading spaces; every piece before
the last loses its trailing spaces. -/
def adjustMid : List (List Char) → List String
  | [] => []
  | [p] => [⟨p.dropWhile (fun c => c = ' ')⟩]
  | p :: rest => (⟨dropTrailSpaces (p.dropWhile (fun c => c = ' '))⟩ : String) :: adjustMid rest

/-- Python `re.split(r" *, *", s)`: split on commas together with the
spaces around them (maximal munch). -/
def commaSplit (s : String) : List String :=
  match splitChar ',' s.toList [] with
  | [] => [s]
  | [p] => [⟨p⟩]
  | p :: rest => (⟨dropTrailSpaces p⟩ : String) :: adjustMid rest

/-- The exceptions `is_safe_value` can raise past its own handler: the
`try` around `ast.parse` and the `__dict__["value"]` projection catches
only `SyntaxError`, so `tree.body[0]` on an empty body escapes as an
`IndexError` and a missing `"value"` key escapes as a `KeyError`. -/
inductive PyExc where
  | keyError : PyExc
  | indexError : PyExc
  deriving DecidableEq

mutual

/-- `safestrfunc.is_safe_value` with explicit recursion fuel, including
its uncaught-exception outcomes: blank strings are safe; a source whose
parse raises `SyntaxError` is caught and unsafe; a comment-only source
raises `IndexError` and a value-less statement raises `KeyError`, both
uncaught; a constant root is safe; a list or tuple root is safe iff every
piece of the comma split of the bracket-stripped text is safe (the `all`
generator stops at the first unsafe piece, and the first piece that
raises propagates); every other root is unsafe. -/
def isSafeValueE : Nat → String → Except PyExc Bool
  | 0, _ => .ok false
  | fuel + 1, s =>
      if pyStripS s = "" then .ok true
      else
        match pyParseStmtKind s with
        | .parseFail => .ok false
        | .emptyBody => .error .indexError
        | .noValue => .error .keyError
        | .valueOther => .ok false
        | .exprValue e =>
            match e with
            | .const => .ok true
            | .listD _ => allSafeGen fuel (commaSplit (remove_seq_boundaries s))
            | .tupleD _ => allSafeGen fuel (commaSplit (remove_seq_boundaries s))
            | _ => .ok false

/-- `all(is_safe_value(item) for item in _seq)`: the generator is consumed
left to right, stopping at the first `False`; an exception raised by a
piece before that point propagates. -/
def allSafeGen : Nat → List String → Except PyExc Bool
  | _, [] => .ok true
  | 0, _ :: _ => .ok false
  | fuel + 1, v :: rest =>
      match isSafeValueE fuel v with
      | .error e => .error e
      | .ok false => .ok false
      | .ok true => allSafeGen fuel rest

end

/-- `safestrfunc.is_safe_value` as Python runs it: value or escaped
exception.  The fuel `2 * s.length + 4` dominates the recursion: after one
flattening the pieces are bracket-free and comma-free, so they can never
be list or tuple roots again, and the piece count plus every piece length
is bounded by the parent length. -/
def is_safe_value_run (s : String) : Except PyExc Bool :=
  isSafeValueE (2 * s.length + 4) s

/-- The value of `is_safe_value` on the inputs where it returns rather
than raises; inputs on which it raises (see `is_safe_value_run`) are
mapped to `false` here. -/
def is_safe_value (s : String) : Bool :=
  match is_safe_value_run s with
  | .ok b => b
  | .error _ => false

mutual

/-- An expression (or one of its subterms, at any depth) is a call. -/
def containsCall : PyExpr → Bool
  | .const => false
  | .nameE _ => false
  | .call _ _ => true
  | .attr e => containsCall e
  | .subscript a b => containsCall a || containsCall b
  | .listD es => containsCallL es
  | .tupleD es => containsCallL es
  | .setD es => containsCallL es
  | .unary e => containsCall e
  | .binop a b => containsCall a || containsCall b
  | .fstring => false

/-- Some element of the list contains a call. -/
def containsCallL : List PyExpr → Bool
  | [] => false
  | e :: es => containsCall e || containsCallL es

end

/-! ## API vocabularies and dispatch (viewpanel.py lines 70–124, 1040–1089) -/

/-- `VALID_CONDITIONS`. -/
def VALID_CONDITIONS : List String :=
  ["VarValueIs", "VarValueIsNot", "VarExists", "VarMissing", "VarCountEq",
   "VarCountGtEq", "VarCountLtEq", "KeyBufferContains",
   "KeyBufferContainsIgnoreCase", "KeyBufferLacks", "HasViewTimePassed",
   "HasTotalTimePassed"]

/-- `VALID_TRIGGERS`. -/
def VALID_TRIGGERS : List String := ["ViewTimePassed", "TotalTimePassed"]

/-- `VALID_ACTIONS`. -/
def VALID_ACTIONS : List String :=
  ["SetVariable", "DelVariable", "VarIncrease", "VarDecrease",
   "ClearKeyBuffer", "TextBox", "ShowObject", "HideObject", "PortalTo",
   "ShowImage", "ShowImageWithin", "PlaySound", "StopSound",
   "StopAllSounds", "PlayBackgroundMusic", "StopBackgroundMusic",
   "PlayVideo", "PlayVideoWithin", "StopVideo", "StopAllVideos",
   "AllowTake", "DisallowTake", "TextDialog", "InputDialog", "SayText",
   "ShowURL", "Quit", "HideMouse", "ShowMouse", "HidePockets",
   "ShowPockets", "NavRight", "NavLeft", "NavTop", "NavBottom",
   "TextBoxHTML", "RunProgram", "ChangeViewImages"]

/-- `chain(VALID_CONDITIONS, VALID_ACTIONS, VALID_TRIGGERS)`. -/
def apiVocab : List String :=
  VALID_CONDITIONS ++ VALID_ACTIONS ++ VALID_TRIGGERS

/-- `ViewPanel.valid_api_call`: parse the expression and keep the result
only when the parsed name is in the closed vocabulary.  Empty or
unparsable expressions and unknown names all yield the empty result. -/
def valid_api_call (expression : String) : Option (String × List String) :=
  if expression = "" then none
  else
    match func_str_parts expression with
    | none => none
    | some (func, params) =>
        if func ∈ apiVocab then some (func, params) else none

/-- `ok_params = [is_safe_value(val) for val in param_values]` followed by
`all(ok_params)`: the list comprehension runs every check in order before
`all` folds them, so the first raising check aborts the comprehension and
its exception escapes, while pure `False` results merely make the
conjunction false. -/
def allSafeList : List String → Except PyExc Bool
  | [] => .ok true
  | v :: rest =>
      match is_safe_value_run v with
      | .error e => .error e
      | .ok b =>
          match allSafeList rest with
          | .error e => .error e
          | .ok b' => .ok (b && b')

/-- `ViewPanel.safe_eval`.  The result `.ok (some (fn, params))` means the
call is dispatched — the source then runs `eval(f"self.{expression}")`,
whose own return value (and any exception the invoked handler raises) is
outside this function's scope; `.ok none` means no handler is invoked and
the Python function returns `None`.  The parse and vocabulary stages sit
inside `try` blocks, but the parameter checks at lines 1079–1080 do not:
an exception `is_safe_value` raises there escapes `safe_eval` to its
caller, which is the `.error` result.  `hasMethod` models Python's
`hasattr(self, fn)`. -/
def safe_eval (hasMethod : String → Bool) (expression : String) :
    Except PyExc (Option (String × List String)) :=
  match func_str_parts expression with
  | none => .ok none
  | some (fn, param_list) =>
      if fn ∈ apiVocab ∧ hasMethod fn then
        match allSafeList (param_list.map get_param) with
        | .error e => .error e
        | .ok true => .ok (some (fn, param_list))
        | .ok false => .ok none
      else .ok none

/-! ## The environment database

`self.db` is a Munch (attribute dict) tree.  The fields the verified
handlers touch are modelled as records; dicts become association lists
whose key structure never changes at runtime.  The panel-level key buffer
is carried in the same state record so that frame properties can speak
about it.  `self.db.Global.GlobalActions` is flattened to the field
`GlobalActions`. -/

/-- Generic association-list lookup (Python `d[k]` / `k in d`). -/
def lookupKey {α : Type} (l : List (String × α)) (k : String) : Option α :=
  match l.find? (fun p => p.1 = k) with
  | some p => some p.2
  | none => none

/-- An interactive object within a view. -/
structure ViewObject where
  Id : Int
  Name : String
  Visible : Bool
  Takeable : Bool
  deriving DecidableEq

/-- A rule record (an `Actions` entry): id, enabled flag, and the three
expression strings. -/
structure Rule where
  Id : Int
  Enabled : Bool
  Trigger : String
  Condition : String
  Action : String
  deriving DecidableEq

/-- One scene. -/
structure View where
  Id : Int
  Name : String
  Objects : List (String × ViewObject)
  Actions : List (String × Rule)
  deriving DecidableEq

/-- The mutable engine state the verified handlers reach: the environment
database plus the panel's key buffer. -/
structure Db where
  Views : List (String × View)
  Variables : Vars
  GlobalActions : List (String × Rule)
  keyBuffer : String
  deriving DecidableEq

/-- A structured `log.info(dict(...))` record, restricted to the fields
the claims speak about (`Kind`, `Type`, `View`, `Result`); parameter and
elapsed-time fields are not modelled. -/
structure LogRec where
  kind : String
  typ : String
  view : String
  result : String
  deriving DecidableEq

/-- A render-layer effect (`self.object_pics[id].show()/.hide()`). -/
inductive RenderEff where
  | showPic : Int → RenderEff
  | hidePic : Int → RenderEff
  deriving DecidableEq

/-! ## `ShowObject` / `HideObject` / `AllowTake` / `DisallowTake`
(viewpanel.py lines 1790–1888)

Each of the four actions runs the same search loop

    for view in self.db.Views.values():
        for _object in view.Objects.values():
            if _object.Id == object_id:
                self.db.Views[str(view.Id)].Objects[str(object_id)].<flag> = ...

inside a `try`.  The loop is modelled over the entry list as of call time
(dict key structure never changes, and the loop only mutates the flag
field of objects of the view currently being iterated, so the snapshot
iteration agrees with Python's live iteration).  A `KeyError` from the
indexed assignment (possible only when a view's object keys disagree with
the objects' `Id` fields) stops the loop with the partially mutated state
and the `ok` flag false — that is the `except` branch. -/

/-- `self.db.Views[vkey].Objects[okey] := f(·)`; `none` on a `KeyError`. -/
def objUpdate (views : List (String × View)) (vkey okey : String)
    (f : ViewObject → ViewObject) : Option (List (String × View)) :=
  match lookupKey views vkey with
  | none => none
  | some v =>
      match lookupKey v.Objects okey with
      | none => none
      | some _ =>
          some (views.map (fun p =>
            if p.1 = vkey then
              (p.1, { p.2 with Objects := p.2.Objects.map (fun q =>
                if q.1 = okey then (q.1, f q.2) else q) })
            else p))

/-- Inner loop over one view's objects. -/
def searchInner (db : Db) (vId : Int) (objs : List (String × ViewObject))
    (oid : Int) (f : ViewObject → ViewObject) : Db × Bool :=
  match objs with
  | [] => (db, true)
  | (_, o) :: rest =>
      if o.Id = oid then
        match objUpdate db.Views (toString vId) (toString oid) f with
        | none => (db, false)
        | some views' => searchInner { db with Views := views' } vId rest oid f
      else searchInner db vId rest oid f

/-- Outer loop over all views. -/
def searchOuter (db : Db) (entries : List (String × View)) (oid : Int)
    (f : ViewObject → ViewObject) : Db × Bool :=
  match entries with
  | [] => (db, true)
  | (_, v) :: rest =>
      match searchInner db v.Id v.Objects oid f with
      | (db', true) => searchOuter db' rest oid f
      | (db', false) => (db', false)

/-- The whole `try` body shared by the four mutators. -/
def mutateObjects (db : Db) (oid : Int) (f : ViewObject → ViewObject) :
    Db × Bool :=
  searchOuter db db.Views oid f

/-- `ViewPanel.ShowObject`.  `curView` is `self.View` (the current view's
record; it aliases the db entry, and since the loop never changes key
structure, key membership through the snapshot agrees with the live
dict). -/
def ShowObject (db : Db) (curView : View) (oid : Int) (skiplog : Bool) :
    Db × List LogRec × List RenderEff :=
  let (db', ok) := mutateObjects db oid (fun o => { o with Visible := true })
  if ok then
    if (lookupKey curView.Objects (toString oid)).isSome then
      (db', (if skiplog then [] else
        [⟨"Action", "ShowObject", curView.Name, "Valid"⟩]), [.showPic oid])
    else (db', [], [])
  else
    (db', (if skiplog then [] else
      [⟨"Action", "ShowObject", curView.Name, "Invalid|ObjectDoesNotExist"⟩]), [])

/-- A pocket's `object_info` (`{name, view_id, Id}`; `-1` marks empty). -/
structure PocketInfo where
  view_id : Int
  Id : Int
  deriving DecidableEq

/-- The pocket dict, pocket index ↦ held object info. -/
abbrev Pockets := List (Nat × PocketInfo)

/-- `ViewPanel.handle_pocket_right_click` (put a pocketed object back),
for a pocket index known to exist.  Result `none` models an uncaught
`KeyError` from `self.db.Views[str(view_id)].Objects[str(object_id)]`
(possible only when the pocket refers to a missing view/object). -/
def handle_pocket_right_click (db : Db) (curView : View) (pockets : Pockets)
    (pid : Nat) (quiet : Bool) :
    Option (Db × Pockets × List LogRec × List RenderEff) :=
  match lookupKey (pockets.map (fun p => (toString p.1, p.2))) (toString pid) with
  | none => none
  | some info =>
      if info.view_id = -1 ∨ info.Id = -1 then
        some (db, pockets,
          [⟨"Mouse", "PocketRightClick", curView.Name, "Invalid|EmptyPocket"⟩], [])
      else
        let logs :=
          if quiet then []
          else [(⟨"Mouse", "PocketRightClick", curView.Name, "Valid"⟩ : LogRec)]
        match objUpdate db.Views (toString info.view_id) (toString info.Id)
            (fun o => { o with Visible := true }) with
        | none => none
        | some views' =>
            let effs := if info.view_id = curView.Id then [RenderEff.showPic info.Id] else []
            let pockets' := pockets.map (fun p =>
              if p.1 = pid then (p.1, ⟨-1, -1⟩) else p)
            some ({ db with Views := views' }, pockets', logs, effs)

/-- The pocket pre-pass of `HideObject`: for every pocket currently
holding the object, put it back first. -/
def hidePocketPass (db : Db) (curView : View) (pockets : Pockets)
    (entries : List (Nat × PocketInfo)) (oid : Int) :
    Option (Db × Pockets × List LogRec × List RenderEff) :=
  match entries with
  | [] => some (db, pockets, [], [])
  | (pid, _) :: rest =>
      let live := (lookupKey (pockets.map (fun p => (toString p.1, p.2))) (toString pid)).getD ⟨-1, -1⟩
      if oid = live.Id then
        match handle_pocket_right_click db curView pockets pid true with
        | none => none
        | some (db', pockets', logs, effs) =>
            match hidePocketPass db' curView pockets' rest oid with
            | none => none
            | some (db'', pockets'', logs', effs') =>
                some (db'', pockets'', logs ++ logs', effs ++ effs')
      else
        match hidePocketPass db curView pockets rest oid with
        | none => none
        | some r => some r

/-- `ViewPanel.HideObject`: pocket put-back pass, then the search loop
setting `Visible = False`, then the current-view render update.  `none`
models an exception escaping from the pocket pass (which runs outside the
`try`). -/
def HideObject (db : Db) (curView : View) (pockets : Pockets) (oid : Int)
    (skiplog : Bool) : Option (Db × Pockets × List LogRec × List RenderEff) :=
  match hidePocketPass db curView pockets pockets oid with
  | none => none
  | some (db₁, pockets', logs₁, effs₁) =>
      let (db₂, ok) := mutateObjects db₁ oid (fun o => { o with Visible := false })
      if ok then
        if (lookupKey curView.Objects (toString oid)).isSome then
          some (db₂, pockets', logs₁ ++ (if skiplog then [] else
            [⟨"Action", "HideObject", curView.Name, "Valid"⟩]),
            effs₁ ++ [.hidePic oid])
        else some (db₂, pockets', logs₁, effs₁)
      else
        some (db₂, pockets', logs₁ ++ (if skiplog then [] else
          [⟨"Action", "HideObject", curView.Name, "Invalid|ObjectDoesNotExist"⟩]),
          effs₁)

/-- `ViewPanel.AllowTake`: the search loop setting `Takeable = True`; a
`Valid` record is logged after the loop (even when no object matched), an
`Invalid|ObjectDoesNotExist` record on an exception. -/
def AllowTake (db : Db) (curView : View) (oid : Int) : Db × List LogRec :=
  let (db', ok) := mutateObjects db oid (fun o => { o with Takeable := true })
  if ok then (db', [⟨"Action", "AllowTake", curView.Name, "Valid"⟩])
  else (db', [⟨"Action", "AllowTake", curView.Name, "Invalid|ObjectDoesNotExist"⟩])

/-- `ViewPanel.DisallowTake`: the search loop setting `Takeable = False`. -/
def DisallowTake (db : Db) (curView : View) (oid : Int) : Db × List LogRec :=
  let (db', ok) := mutateObjects db oid (fun o => { o with Takeable := false })
  if ok then (db', [⟨"Action", "DisallowTake", curView.Name, "Valid"⟩])
  else (db', [⟨"Action", "DisallowTake", curView.Name, "Invalid|ObjectDoesNotExist"⟩])

/-! ## `PortalTo` (viewpanel.py lines 2041–2091) -/

/-- External facts `PortalTo` queries: whether the resolved transition
video path exists, the `PlayMedia` option, whether the file is a gif, and
whether constructing the video/animation object succeeds. -/
structure MediaEnv where
  pathExists : Bool
  playMedia : Bool
  isGif : Bool
  videoCreateOk : Bool

/-- A view-switch request issued to the rendering collaborator
(`do_portal`): immediately, or as the `on_finish` callback of a
transition video. -/
inductive PortalReq where
  | switchNow : Int → PortalReq
  | switchAfterVideo : Int → PortalReq
  deriving DecidableEq

/-- `ViewPanel.PortalTo`: validate the target view id; absent ids log
`Invalid|ViewDoesNotExist` and do nothing; otherwise issue exactly one
view-switch request, optionally wrapped in a transition video.  The db is
not touched (the switch itself happens in the rendering collaborator). -/
def PortalTo (db : Db) (curViewName : String) (env : MediaEnv)
    (view_id : Int) (vid_file : String) : List LogRec × List PortalReq :=
  if (lookupKey db.Views (toString view_id)).isNone then
    ([⟨"Action", "PortalTo", curViewName, "Invalid|ViewDoesNotExist"⟩], [])
  else if vid_file ≠ "" ∧ env.pathExists ∧ (env.playMedia ∨ env.isGif) then
    if env.videoCreateOk then
      ([⟨"Action", "PortalTo", curViewName, "Valid|WithTransition"⟩],
       [.switchAfterVideo view_id])
    else
      ([⟨"Action", "PortalTo", curViewName, "Valid|WithTransition"⟩,
        ⟨"Action", "PortalTo", curViewName, "Valid"⟩],
       [.switchNow view_id])
  else
    ([⟨"Action", "PortalTo", curViewName, "Valid"⟩], [.switchNow view_id])

/-! ## `start_timers` (viewpanel.py lines 790–863)

`start_timers` walks `chain(GlobalActions.values(), View.Actions.values())`
over rules that parse (trigger and action names in the vocabulary, the
condition likewise or empty) and schedules `TotalTimePassed` /
`ViewTimePassed` triggers via single-shot timers.  A `TotalTimePassed`
rule found in `GlobalActions.values()` is disabled at scheduling time.
The clock (`timeit.default_timer()`) is sampled per rule in the source;
the model takes one elapsed value per call — the sample only shifts the
computed delay, never whether or what is scheduled or disabled.  `none`
models a `ValueError` from `float(params[0])` (or a `KeyError` from the
disabling index), which would escape `start_timers`. -/

/-- Which chain a processed rule came from. -/
inductive SchedSource where
  | globalSrc : SchedSource
  | viewSrc : SchedSource
  deriving DecidableEq

/-- One `QTimer.singleShot` registration made by `start_timers`. -/
structure Sched where
  source : SchedSource
  trig : String
  ruleId : Int
  cond : String
  act : String
  delay : ℚ
  deriving DecidableEq

/-- Set `Enabled := false` on the entry at key `k` (identity elsewhere). -/
def disableEntry (k : String) (p : String × Rule) : String × Rule :=
  if p.1 = k then (p.1, { p.2 with Enabled := false }) else p

/-- `self.db.Global.GlobalActions[str(action.Id)].Enabled = False`;
`none` on a `KeyError`. -/
def disableRule (ga : List (String × Rule)) (k : String) :
    Option (List (String × Rule)) :=
  if (lookupKey ga k).isSome then some (ga.map (disableEntry k))
  else none

/-- Process one rule of the chain: the body of the `start_timers` loop. -/
def procTimerRule (ga : List (String × Rule)) (src : SchedSource) (r : Rule)
    (taskElapsed viewElapsed : ℚ) :
    Option (List (String × Rule) × List Sched) :=
  if !r.Enabled then some (ga, [])
  else
    match valid_api_call r.Trigger with
    | none => some (ga, [])
    | some (func, params) =>
        if (valid_api_call r.Action).isSome ∧
            ((valid_api_call r.Condition).isSome ∨ r.Condition = "") then
          if func = "TotalTimePassed" then
            match pyFloatQ (params.headD "") with
            | none => none
            | some t =>
                let delay := if taskElapsed ≥ t then 0 else qSub t taskElapsed
                let evs := [(⟨src, func, r.Id, r.Condition, r.Action, delay⟩ : Sched)]
                if r ∈ ga.map Prod.snd then
                  match disableRule ga (toString r.Id) with
                  | none => none
                  | some ga' => some (ga', evs)
                else some (ga, evs)
          else if func = "ViewTimePassed" then
            match pyFloatQ (params.headD "") with
            | none => none
            | some t =>
                let delay := if viewElapsed ≥ t then 0 else qSub t viewElapsed
                some (ga, [⟨src, func, r.Id, r.Condition, r.Action, delay⟩])
          else some (ga, [])
        else some (ga, [])

/-- The `GlobalActions` half of the chain: iterate the entry keys, reading
each rule's current (live) value. -/
def timersGlobalPhase (ga : List (String × Rule))
    (entries : List (String × Rule)) (taskElapsed viewElapsed : ℚ) :
    Option (List (String × Rule) × List Sched) :=
  match entries with
  | [] => some (ga, [])
  | (k, r₀) :: rest =>
      let r := (lookupKey ga k).getD r₀
      match procTimerRule ga .globalSrc r taskElapsed viewElapsed with
      | none => none
      | some (ga', evs) =>
          match timersGlobalPhase ga' rest taskElapsed viewElapsed with
          | none => none
          | some (ga'', evs') => some (ga'', evs ++ evs')

/-- The `View.Actions` half of the chain (view rules are never mutated by
`start_timers`, so the snapshot values are the live values). -/
def timersViewPhase (ga : List (String × Rule))
    (entries : List (String × Rule)) (taskElapsed viewElapsed : ℚ) :
    Option (List (String × Rule) × List Sched) :=
  match entries with
  | [] => some (ga, [])
  | (_, r) :: rest =>
      match procTimerRule ga .viewSrc r taskElapsed viewElapsed with
      | none => none
      | some (ga', evs) =>
          match timersViewPhase ga' rest taskElapsed viewElapsed with
          | none => none
          | some (ga'', evs') => some (ga'', evs ++ evs')

/-- `ViewPanel.start_timers`: the whole scan, returning the updated
`GlobalActions` and the scheduled timers. -/
def start_timers (ga viewActions : List (String × Rule))
    (taskElapsed viewElapsed : ℚ) :
    Option (List (String × Rule) × List Sched) :=
  match timersGlobalPhase ga ga taskElapsed viewElapsed with
  | none => none
  | some (ga₁, evs₁) =>
      match timersViewPhase ga₁ viewActions taskElapsed viewElapsed with
      | none => none
      | some (ga₂, evs₂) => some (ga₂, evs₁ ++ evs₂)

/-- A session: `start_timers` runs once per view entry; each step supplies
that view's rules and the elapsed clocks at entry time. -/
def runSession (ga : List (String × Rule))
    (steps : List (List (String × Rule) × ℚ × ℚ)) :
    Option (List (String × Rule) × List Sched) :=
  match steps with
  | [] => some (ga, [])
  | (vas, te, ve) :: rest =>
      match start_timers ga vas te ve with
      | none => none
      | some (ga', evs) =>
          match runSession ga' rest with
          | none => none
          | some (ga'', evs') => some (ga'', evs ++ evs')

/-! ## Well-formedness of the environment database

The declarative environment source keys every `Views`/`Objects`/
`GlobalActions` dict by the stringified id of the record it holds, and
dict keys are unique.  The checkable predicates below state exactly
that. -/

/-- Object dict well-formedness: unique keys, each the stringified id. -/
def WFobjs (objs : List (String × ViewObject)) : Bool :=
  decide (objs.map Prod.fst).Nodup &&
    objs.all (fun q => q.1 = toString q.2.Id)

/-- Database well-formedness for the view/object tree. -/
def WFdb (db : Db) : Bool :=
  decide (db.Views.map Prod.fst).Nodup &&
    db.Views.all (fun p => p.1 = toString p.2.Id && WFobjs p.2.Objects)

/-- `GlobalActions` well-formedness: unique keys, each the stringified
rule id. -/
def WFga (ga : List (String × Rule)) : Bool :=
  decide (ga.map Prod.fst).Nodup &&
    ga.all (fun p => p.1 = toString p.2.Id)

/-! ## Frame relation for the object mutators

`DbRel oid f db db'` says `db'` differs from `db` at most in that objects
whose `Id` is `oid` may have been replaced by their `f`-image: variables,
global rules (hence every `Enabled` flag), the key buffer, every view's
identity/name/rule table, the dict skeleton, and every object whose `Id`
is not `oid` are unchanged. -/

/-- Object-level frame relation. -/
def ObjRel (oid : Int) (f : ViewObject → ViewObject)
    (p q : String × ViewObject) : Prop :=
  q.1 = p.1 ∧ (q.2 = p.2 ∨ (p.2.Id = oid ∧ q.2 = f p.2))

/-- View-level frame relation. -/
def ViewRel (oid : Int) (f : ViewObject → ViewObject)
    (p q : String × View) : Prop :=
  q.1 = p.1 ∧ q.2.Id = p.2.Id ∧ q.2.Name = p.2.Name ∧
  q.2.Actions = p.2.Actions ∧
  List.Forall₂ (ObjRel oid f) p.2.Objects q.2.Objects

/-- Database-level frame relation. -/
def DbRel (oid : Int) (f : ViewObject → ViewObject) (db db' : Db) : Prop :=
  db'.Variables = db.Variables ∧ db'.GlobalActions = db.GlobalActions ∧
  db'.keyBuffer = db.keyBuffer ∧
  List.Forall₂ (ViewRel oid f) db.Views db'.Views

/-- `enabledAtKey ga k`: the `Enabled` flag of the rule stored at key `k`
(false when the key is absent). -/
def enabledAtKey (ga : List (String × Rule)) (k : String) : Bool :=
  match lookupKey ga k with
  | some r => r.Enabled
  | none => false

/-- `1` for `true`, `0` for `false`. -/
def bval : Bool → Nat
  | true => 1
  | false => 0

/-- The number of global-chain `TotalTimePassed` registrations for the
rule stored at key `k`. -/
def cntKey (evs : List Sched) (k : String) : Nat :=
  evs.countP (fun e =>
    e.source = SchedSource.globalSrc ∧ e.trig = "TotalTimePassed" ∧
      toString e.ruleId = k)


/-- The key-id well-formedness carried through the timer proofs. -/
def WFgaP (ga : List (String × Rule)) : Prop :=
  ∀ p ∈ ga, p.1 = toString p.2.Id


/-- A small concrete environment shared by the concrete evaluations. -/
def dbSample : Db :=
  { Views :=
      [("1", { Id := 1, Name := "Study",
               Objects := [("4", { Id := 4, Name := "Key",
                                   Visible := true, Takeable := false })],
               Actions := [] }),
       ("2", { Id := 2, Name := "Hall",
               Objects := [("7", { Id := 7, Name := "Door",
                                   Visible := false, Takeable := false })],
               Actions := [] })],
    Variables := [("flag", "1")],
    GlobalActions :=
      [("3", { Id := 3, Enabled := true, Trigger := "TotalTimePassed(30)",
               Condition := "", Action := "ShowObject(4)" })],
    keyBuffer := "ab" }

/-- The current view of `dbSample` (view `"1"`). -/
def viewSample : View :=
  { Id := 1, Name := "Study",
    Objects := [("4", { Id := 4, Name := "Key",
                        Visible := true, Takeable := false })],
    Actions := [] }


/-- The global rule, schedule record, and disabled store of the concrete
C3 run. -/
def ruleG : Rule :=
  { Id := 3, Enabled := true, Trigger := "TotalTimePassed(30)",
    Condition := "", Action := "ShowObject(4)" }

/-- A one-rule `GlobalActions` table. -/
def gaG : List (String × Rule) := [("3", ruleG)]

/-- `gaG` after its rule is disabled. -/
def gaGdis : List (String × Rule) :=
  [("3", { Id := 3, Enabled := false, Trigger := "TotalTimePassed(30)",
           Condition := "", Action := "ShowObject(4)" })]

/-- The single registration the concrete run produces. -/
def evG : Sched :=
  { source := .globalSrc, trig := "TotalTimePassed", ruleId := 3,
    cond := "", act := "ShowObject(4)", delay := 30 }


end GemsRun

namespace GemsRun

/-! ## Helper lemmas: the variable store -/

theorem varMem_of_varLookup {vars : Vars} {v s : String}
    (h : varLookup vars v = some s) : varMem vars v = true := by
  unfold varLookup at h
  unfold varMem
  cases hf : vars.find? (fun p => p.1 = v) with
  | none => rw [hf] at h; exact absurd h (by simp)
  | some p =>
      have := List.find?_some hf
      have hm := List.mem_of_find?_eq_some hf
      simp only [List.any_eq_true]
      exact ⟨p, hm, this⟩

theorem varLookup_none_of_not_varMem {vars : Vars} {v : String}
    (h : varMem vars v = false) : varLookup vars v = none := by
  unfold varLookup
  cases hf : vars.find? (fun p => p.1 = v) with
  | none => rfl
  | some p =>
      have hp := List.find?_some hf
      have hm := List.mem_of_find?_eq_some hf
      unfold varMem at h
      rw [List.any_eq_false] at h
      exact absurd hp (by simpa using h p hm)

theorem varLookup_isSome_of_varMem {vars : Vars} {v : String}
    (h : varMem vars v = true) : (varLookup vars v).isSome = true := by
  unfold varMem at h
  rw [List.any_eq_true] at h
  obtain ⟨x, hx, hxv⟩ := h
  unfold varLookup
  cases hf : vars.find? (fun p => p.1 = v) with
  | some p => rfl
  | none =>
      have := List.find?_eq_none.mp hf x hx
      simp [hxv] at this

theorem varLookup_varSet_self (vars : Vars) (v val : String) :
    varLookup (varSet vars v val) v = some val := by
  unfold varSet
  by_cases h : varMem vars v = true
  · simp only [h, if_true]
    unfold varMem at h
    rw [List.any_eq_true] at h
    induction vars with
    | nil => simp at h
    | cons p t ih =>
        by_cases hp : p.1 = v
        · simp [varLookup, List.find?, hp]
        · have ht : ∃ x ∈ t, decide (x.1 = v) = true := by
            rcases h with ⟨x, hx, hxv⟩
            rcases List.mem_cons.mp hx with rfl | hxt
            · exact absurd (of_decide_eq_true hxv) hp
            · exact ⟨x, hxt, hxv⟩
          have := ih ht
          simpa [varLookup, List.find?, hp] using this
  · rw [if_neg h]
    rw [Bool.not_eq_true] at h
    unfold varMem at h
    rw [List.any_eq_false] at h
    induction vars with
    | nil => simp [varLookup, List.find?]
    | cons p t ih =>
        have hp : ¬(p.1 = v) := by simpa using h p (List.mem_cons_self p t)
        have ht : ∀ x ∈ t, ¬(decide (x.1 = v) = true) := fun x hx =>
          h x (List.mem_cons_of_mem p hx)
        simpa [varLookup, List.find?, hp] using ih ht

/-! ## Claim C1 — `is_safe_value` and the literal-only contract

The checker flattens *all* brackets of a list/tuple argument and splits on
*all* commas (`remove_seq_boundaries` + `re.split(" *, *", ·)`), instead
of stripping one level and splitting top-level elements.  Consequently
`"[None()]"` — a list containing the call `None()` — is accepted: the
root parses as a `List`, flattening yields `"None"`, and `"None"` parses
as a constant.  Dually, `"[\"a,b\"]"` — a list of one string literal —
is rejected, because the split cuts inside the quoted string. -/

/-- Claim C1: evaluation of `is_safe_value` at the failing inputs.  The
argument string `"[None()]"` parses to a list whose element is a call,
yet `is_safe_value` returns `true`; and the literal-only list
`"[\"a,b\"]"` returns `false`.  Both contradict the documented contract
(lists are safe iff every element is a constant, and any argument
containing a call is unsafe). -/
theorem is_safe_value_flattening_divergence :
    is_safe_value "[None()]" = true ∧
    (pyParseExpr "[None()]").map containsCall = some true ∧
    is_safe_value "[\"a,b\"]" = false ∧
    (pyParseExpr "[\"a,b\"]").map containsCall = some false := by
  refine ⟨by decide, by decide, by decide, by decide⟩

/-! ## Claim C2 — `safe_eval` and invalid expressions -/

/-- Claim C2, settled against the source at concrete inputs.  The claim
says `safe_eval` returns `None` and never raises for every malformed,
unknown-name or unsafe-argument expression.  The malformed and
unknown-name paths do behave that way (conjuncts three and four), and so
does an unsafe argument that `ast.parse` accepts as an expression
(conjunct five).  But the constant-value checks at lines 1079–1080 sit
outside every `try`, and `is_safe_value` catches only `SyntaxError`: a
statement-form argument such as `import os` makes
`tree.body[0].__dict__["value"]` raise `KeyError`, and a comment-only
argument such as `#` makes `tree.body[0]` raise `IndexError`, so both
escape `safe_eval` to its caller (conjuncts one and two), contradicting
the never-raises half of the claim. -/
theorem safe_eval_unsafe_argument_raises :
    safe_eval (fun _ => true) "VarExists(import os)" = .error .keyError ∧
    safe_eval (fun _ => true) "VarExists(#)" = .error .indexError ∧
    safe_eval (fun _ => true) "nonsense" = .ok none ∧
    safe_eval (fun _ => true) "NoSuchThing(1)" = .ok none ∧
    safe_eval (fun _ => true) "VarExists(x)" = .ok none :=
  ⟨rfl, rfl, rfl, rfl, rfl⟩

/-! ## Claim C4 — `VarValueIs` / `VarValueIsNot` are complements -/

/-- Claim C4: when the variable exists, `VarValueIsNot` is the boolean
negation of `VarValueIs`; when it does not exist, `VarValueIs` is false
and `VarValueIsNot` is true. -/
theorem varValueIs_varValueIsNot_complement (vars : Vars) (v x : String) :
    (varMem vars v = true →
      VarValueIsNot vars v x = !VarValueIs vars v x) ∧
    (varMem vars v = false →
      VarValueIs vars v x = false ∧ VarValueIsNot vars v x = true) := by
  constructor
  · intro hm
    unfold VarValueIs VarValueIsNot
    cases hl : varLookup vars v with
    | none =>
        have hs := varLookup_isSome_of_varMem hm
        rw [hl] at hs
        simp at hs
    | some stored => simp [hm]
  · intro hm
    unfold VarValueIs VarValueIsNot
    rw [varLookup_none_of_not_varMem hm]
    simp [hm]

/-- Witness for C4 at an existing and at a missing variable. -/
theorem varValueIs_varValueIsNot_complement_witness :
    VarValueIsNot [("k", "1")] "k" "1.0" = !VarValueIs [("k", "1")] "k" "1.0" ∧
    (VarValueIs [] "k" "1.0" = false ∧ VarValueIsNot [] "k" "1.0" = true) :=
  ⟨(varValueIs_varValueIsNot_complement [("k", "1")] "k" "1.0").1 (by decide),
   (varValueIs_varValueIsNot_complement [] "k" "1.0").2 (by decide)⟩

/-! ## Claim C5 — the smart-compare semantics -/

/-- Claim C5: `_smart_compare` compares with the float `==` when both
strings convert with `float`, and falls back to string equality when
either conversion raises; in particular `"3"` and `"3.0"` compare equal
while `"abc"` and `"abc "` do not.  The concrete conjuncts exercise the
float semantics: underscore grouping (`float("1_0") == float("10")`),
case-insensitive infinities (`float("inf") == float("INF")`), NaN unequal
to itself, and binary64 rounding making `9007199254740993` (that is,
`2 ^ 53 + 1`) equal to `9007199254740992`. -/
theorem smartCompare_spec :
    (∀ a b : String,
      (∀ fa ∈ pyFloat a, ∀ fb ∈ pyFloat b,
        smartCompare a b = pyFloatEq fa fb) ∧
      ((pyFloat a = none ∨ pyFloat b = none) →
        smartCompare a b = decide (a = b))) ∧
    smartCompare "3" "3.0" = true ∧ smartCompare "abc" "abc " = false ∧
    smartCompare "1_0" "10" = true ∧ smartCompare "inf" "INF" = true ∧
    smartCompare "nan" "nan" = false ∧
    smartCompare "9007199254740993" "9007199254740992" = true := by
  refine ⟨fun a b => ⟨?_, ?_⟩, by decide, by decide, by decide, by decide,
    by decide, by decide⟩
  · intro fa ha fb hb
    unfold smartCompare
    rw [Option.mem_def] at ha hb
    rw [ha, hb]
  · intro h
    unfold smartCompare
    rcases h with h | h
    · rw [h]
    · rw [h]; cases pyFloat a <;> rfl

/-- Witness for C5: both hypothesis forms at concrete strings. -/
theorem smartCompare_spec_witness :
    smartCompare "2" "2.00" = pyFloatEq (.finite 2) (.finite 2) ∧
    smartCompare "abc" "3" = decide (("abc" : String) = "3") :=
  ⟨(smartCompare_spec.1 "2" "2.00").1 (.finite 2) (by decide) (.finite 2)
     (by decide),
   (smartCompare_spec.1 "abc" "3").2 (Or.inl (by decide))⟩

/-! ## Claim C6 — `VarIncrease` / `VarDecrease` -/

/-- Claim C6: `VarIncrease` then `VarDecrease` on a fresh variable stores
`"1"` then `"0"`; `VarIncrease` on a stored `"2.0"` stores the
integer-formatted `"3"`; and on a stored value that `float` rejects (or a
missing variable) the two actions reset the variable to `"1"` / `"0"`
instead of failing.  The last two conjuncts pin the float semantics of
the numeric branch: a stored `"1_0"` is numeric (`float("1_0")` is
`10.0`) and becomes `"11"` / `"9"`, and a stored `"inf"` is numeric but
`int(inf)` raises `OverflowError` past the inner handler, so the store is
left unchanged. -/
theorem varIncrease_varDecrease_spec :
    (∀ v : String,
      VarIncrease [] v = [(v, "1")] ∧
      varLookup (VarDecrease (VarIncrease [] v) v) v = some "0") ∧
    (∀ (vars : Vars) (v : String), varLookup vars v = some "2.0" →
      varLookup (VarIncrease vars v) v = some "3") ∧
    (∀ (vars : Vars) (v cur : String), varLookup vars v = some cur →
      pyFloat cur = none →
      varLookup (VarIncrease vars v) v = some "1" ∧
      varLookup (VarDecrease vars v) v = some "0") ∧
    (∀ v : String, VarDecrease [] v = [(v, "0")]) ∧
    (∀ (vars : Vars) (v : String), varLookup vars v = some "1_0" →
      varLookup (VarIncrease vars v) v = some "11" ∧
      varLookup (VarDecrease vars v) v = some "9") ∧
    (∀ (vars : Vars) (v : String), varLookup vars v = some "inf" →
      VarIncrease vars v = vars ∧ VarDecrease vars v = vars) := by
  have hfresh : ∀ v : String, VarIncrease [] v = [(v, "1")] := by
    intro v; rfl
  refine ⟨fun v => ⟨hfresh v, ?_⟩, ?_, ?_, ?_, ?_, ?_⟩
  · rw [hfresh v]
    have hm : varMem [(v, "1")] v = true := by simp [varMem]
    have hl : varLookup [(v, "1")] v = some "1" := by
      simp [varLookup, List.find?]
    unfold VarDecrease
    rw [if_pos hm]
    simp only [hl]
    have hp : pyFloat "1" = some (.finite 1) := by decide
    simp only [hp]
    have hd : ((1 : ℚ)).den = 1 := by decide
    rw [if_pos hd]
    have hs : toString ((1 : ℚ).num - 1) = "0" := by decide
    rw [hs]
    exact varLookup_varSet_self [(v, "1")] v "0"
  · intro vars v h
    have hm := varMem_of_varLookup h
    unfold VarIncrease
    rw [if_pos hm]
    simp only [h]
    have hp : pyFloat "2.0" = some (.finite 2) := by decide
    simp only [hp]
    have hd : ((2 : ℚ)).den = 1 := by decide
    rw [if_pos hd]
    have hs : toString ((2 : ℚ).num + 1) = "3" := by decide
    rw [hs]
    exact varLookup_varSet_self vars v "3"
  · intro vars v cur h hf
    have hm := varMem_of_varLookup h
    constructor
    · unfold VarIncrease
      rw [if_pos hm]
      simp only [h]
      simp only [hf]
      exact varLookup_varSet_self vars v "1"
    · unfold VarDecrease
      rw [if_pos hm]
      simp only [h]
      simp only [hf]
      exact varLookup_varSet_self vars v "0"
  · intro v; rfl
  · intro vars v h
    have hm := varMem_of_varLookup h
    have hp : pyFloat "1_0" = some (.finite 10) := by decide
    have hd : ((10 : ℚ)).den = 1 := by decide
    constructor
    · unfold VarIncrease
      rw [if_pos hm]
      simp only [h, hp]
      rw [if_pos hd]
      have hs : toString ((10 : ℚ).num + 1) = "11" := by decide
      rw [hs]
      exact varLookup_varSet_self vars v "11"
    · unfold VarDecrease
      rw [if_pos hm]
      simp only [h, hp]
      rw [if_pos hd]
      have hs : toString ((10 : ℚ).num - 1) = "9" := by decide
      rw [hs]
      exact varLookup_varSet_self vars v "9"
  · intro vars v h
    have hm := varMem_of_varLookup h
    have hp : pyFloat "inf" = some PyFloat.inf := by decide
    constructor
    · unfold VarIncrease
      rw [if_pos hm]
      simp only [h, hp]
    · unfold VarDecrease
      rw [if_pos hm]
      simp only [h, hp]

/-- Witness for C6 at concrete variables and stores. -/
theorem varIncrease_varDecrease_spec_witness :
    VarIncrease [] "n" = [("n", "1")] ∧
    varLookup (VarDecrease (VarIncrease [] "n") "n") "n" = some "0" ∧
    varLookup (VarIncrease [("m", "2.0")] "m") "m" = some "3" ∧
    varLookup (VarIncrease [("s", "abc")] "s") "s" = some "1" ∧
    varLookup (VarDecrease [("s", "abc")] "s") "s" = some "0" ∧
    varLookup (VarIncrease [("u", "1_0")] "u") "u" = some "11" ∧
    VarIncrease [("w", "inf")] "w" = [("w", "inf")] :=
  ⟨(varIncrease_varDecrease_spec.1 "n").1,
   (varIncrease_varDecrease_spec.1 "n").2,
   varIncrease_varDecrease_spec.2.1 [("m", "2.0")] "m" (by decide),
   (varIncrease_varDecrease_spec.2.2.1 [("s", "abc")] "s" "abc"
     (by decide) (by decide)).1,
   (varIncrease_varDecrease_spec.2.2.1 [("s", "abc")] "s" "abc"
     (by decide) (by decide)).2,
   (varIncrease_varDecrease_spec.2.2.2.2.1 [("u", "1_0")] "u" (by decide)).1,
   (varIncrease_varDecrease_spec.2.2.2.2.2 [("w", "inf")] "w" (by decide)).1⟩

/-! ## Claim C7 — `PortalTo` -/

/-- Claim C7: when the target view id is absent from `Views`, `PortalTo`
emits exactly the `Invalid|ViewDoesNotExist` log record and issues no
view-switch request (the db itself is never touched by `PortalTo`, so the
current view stays); when the id is present, exactly one view-switch
request for that id is issued per call, either directly or as the
completion callback of the transition video. -/
theorem portalTo_spec (db : Db) (curName : String) (env : MediaEnv)
    (view_id : Int) (vid_file : String) :
    (lookupKey db.Views (toString view_id) = none →
      PortalTo db curName env view_id vid_file =
        ([⟨"Action", "PortalTo", curName, "Invalid|ViewDoesNotExist"⟩], [])) ∧
    ((lookupKey db.Views (toString view_id)).isSome = true →
      (PortalTo db curName env view_id vid_file).2 = [.switchNow view_id] ∨
      (PortalTo db curName env view_id vid_file).2 = [.switchAfterVideo view_id]) := by
  constructor
  · intro h
    unfold PortalTo
    rw [h]
    simp
  · intro h
    rcases hx : lookupKey db.Views (toString view_id) with _ | v
    · rw [hx] at h; simp at h
    · simp only [PortalTo, hx, Option.isNone_some, Bool.false_eq_true, if_false]
      split_ifs
      · exact Or.inr rfl
      · exact Or.inl rfl
      · exact Or.inl rfl

/-- Witness for C7: a missing and a present target view id. -/
theorem portalTo_spec_witness :
    PortalTo dbSample "Study" ⟨false, true, false, true⟩ 99 "" =
      ([⟨"Action", "PortalTo", "Study", "Invalid|ViewDoesNotExist"⟩], []) ∧
    ((PortalTo dbSample "Study" ⟨false, true, false, true⟩ 2 "").2 =
        [.switchNow 2] ∨
      (PortalTo dbSample "Study" ⟨false, true, false, true⟩ 2 "").2 =
        [.switchAfterVideo 2]) :=
  ⟨(portalTo_spec dbSample "Study" ⟨false, true, false, true⟩ 99 "").1 (by decide),
   (portalTo_spec dbSample "Study" ⟨false, true, false, true⟩ 2 "").2 (by decide)⟩

/-! ## Claim C8 — `ShowObject` / `HideObject` on a missing object id

The `Invalid|ObjectDoesNotExist` record is logged only in the `except`
branch, but the search loop raises nothing when no object matches: it
simply finds no match, the `else` branch's current-view check also fails,
and the call returns having logged nothing at all.  The claimed log
record is never produced for a merely missing id. -/

/-- Claim C8, evaluated at the failing input: `ShowObject(99)` and
`HideObject(99)` in an environment whose object ids are `4` and `7` leave
the whole state unchanged — and emit no log record (in particular none
with result `Invalid|ObjectDoesNotExist`), contradicting the claimed
logging. -/
theorem showObject_hideObject_missing_id_silent :
    ShowObject dbSample viewSample 99 false = (dbSample, [], []) ∧
    HideObject dbSample viewSample [(0, ⟨-1, -1⟩)] 99 false =
      some (dbSample, [(0, ⟨-1, -1⟩)], [], []) := by
  exact ⟨by decide, by decide⟩

/-! ## Claim C10 — frame property of the object mutators -/

theorem eq_of_mem_nodup_keys {α : Type} {l : List (String × α)}
    (hn : (l.map Prod.fst).Nodup) {p q : String × α}
    (hp : p ∈ l) (hq : q ∈ l) (h : p.1 = q.1) : p = q := by
  induction l with
  | nil => cases hp
  | cons a t ih =>
      rw [List.map_cons] at hn
      have hn' := List.nodup_cons.mp hn
      rcases List.mem_cons.mp hp with rfl | hp'
      · rcases List.mem_cons.mp hq with rfl | hq'
        · rfl
        · exfalso
          apply hn'.1
          rw [h]
          exact List.mem_map_of_mem Prod.fst hq'
      · rcases List.mem_cons.mp hq with rfl | hq'
        · exfalso
          apply hn'.1
          rw [← h]
          exact List.mem_map_of_mem Prod.fst hp'
        · exact ih hn'.2 hp' hq'

theorem objRel_refl (oid : Int) (f : ViewObject → ViewObject)
    (objs : List (String × ViewObject)) :
    List.Forall₂ (ObjRel oid f) objs objs := by
  induction objs with
  | nil => exact List.Forall₂.nil
  | cons p t ih => exact List.Forall₂.cons ⟨rfl, Or.inl rfl⟩ ih

theorem viewRel_refl (oid : Int) (f : ViewObject → ViewObject)
    (views : List (String × View)) :
    List.Forall₂ (ViewRel oid f) views views := by
  induction views with
  | nil => exact List.Forall₂.nil
  | cons p t ih =>
      exact List.Forall₂.cons ⟨rfl, rfl, rfl, rfl, objRel_refl oid f p.2.Objects⟩ ih

theorem dbRel_refl (oid : Int) (f : ViewObject → ViewObject) (db : Db) :
    DbRel oid f db db :=
  ⟨rfl, rfl, rfl, viewRel_refl oid f db.Views⟩

/-- Updating the objects stored at key `toString oid` preserves the frame
relation, provided every original object at that key has `Id = oid` and
`f` is idempotent. -/
theorem objRel_update {oid : Int} {f : ViewObject → ViewObject}
    (hid : ∀ o, f (f o) = f o)
    {orig cur : List (String × ViewObject)}
    (hrel : List.Forall₂ (ObjRel oid f) orig cur)
    (hkey : ∀ p ∈ orig, p.1 = toString oid → p.2.Id = oid) :
    List.Forall₂ (ObjRel oid f) orig
      (cur.map (fun q => if q.1 = toString oid then (q.1, f q.2) else q)) := by
  induction hrel with
  | nil => exact List.Forall₂.nil
  | cons hpq htail ih =>
      rename_i p q torig tcur
      rw [List.map_cons]
      refine List.Forall₂.cons ?_
        (ih (fun x hx hk => hkey x (List.mem_cons_of_mem p hx) hk))
      by_cases hq : q.1 = toString oid
      · rw [if_pos hq]
        obtain ⟨hfst, hsnd⟩ := hpq
        have hpid : p.2.Id = oid :=
          hkey p (List.mem_cons_self p torig) (by rw [← hfst, hq])
        refine ⟨hfst, Or.inr ⟨hpid, ?_⟩⟩
        rcases hsnd with h | ⟨_, h⟩
        · rw [h]
        · rw [h, hid]
      · rw [if_neg hq]
        exact hpq

/-- Updating one view's objects (the indexed assignment of the search
loop) preserves the view-level frame relation. -/
theorem viewRel_update {oid : Int} {f : ViewObject → ViewObject}
    (hid : ∀ o, f (f o) = f o) {vk : String}
    {origV curV : List (String × View)}
    (hrel : List.Forall₂ (ViewRel oid f) origV curV)
    (hkeyV : ∀ pv ∈ origV, pv.1 = vk →
      ∀ q ∈ pv.2.Objects, q.1 = toString oid → q.2.Id = oid) :
    List.Forall₂ (ViewRel oid f) origV
      (curV.map (fun p =>
        if p.1 = vk then
          (p.1, { p.2 with Objects := p.2.Objects.map (fun q =>
            if q.1 = toString oid then (q.1, f q.2) else q) })
        else p)) := by
  induction hrel with
  | nil => exact List.Forall₂.nil
  | cons hpq htail ih =>
      rename_i p q torig tcur
      rw [List.map_cons]
      refine List.Forall₂.cons ?_
        (ih (fun x hx hk => hkeyV x (List.mem_cons_of_mem p hx) hk))
      by_cases hq : q.1 = vk
      · rw [if_pos hq]
        obtain ⟨hfst, hId, hName, hActs, hobjs⟩ := hpq
        refine ⟨hfst, hId, hName, hActs, ?_⟩
        exact objRel_update hid hobjs
          (hkeyV p (List.mem_cons_self p torig) (by rw [← hfst, hq]))
      · rw [if_neg hq]
        exact hpq

/-- The successful indexed assignment is exactly the double keyed map. -/
theorem objUpdate_some {views V' : List (String × View)} {vk okey : String}
    {f : ViewObject → ViewObject}
    (h : objUpdate views vk okey f = some V') :
    V' = views.map (fun p =>
      if p.1 = vk then
        (p.1, { p.2 with Objects := p.2.Objects.map (fun q =>
          if q.1 = okey then (q.1, f q.2) else q) })
      else p) := by
  unfold objUpdate at h
  cases h1 : lookupKey views vk with
  | none => rw [h1] at h; cases h
  | some v =>
      simp only [h1] at h
      cases h2 : lookupKey v.Objects okey with
      | none =>
          simp only [h2] at h
          exact Option.noConfusion h
      | some o =>
          simp only [h2] at h
          exact (Option.some.inj h).symm

/-- The well-formedness content of `WFdb` as propositions. -/
theorem WFdb_spec {db : Db} (h : WFdb db = true) :
    (db.Views.map Prod.fst).Nodup ∧
    ∀ p ∈ db.Views, p.1 = toString p.2.Id ∧
      (p.2.Objects.map Prod.fst).Nodup ∧
      ∀ q ∈ p.2.Objects, q.1 = toString q.2.Id := by
  unfold WFdb WFobjs at h
  rw [Bool.and_eq_true] at h
  obtain ⟨h1, h2⟩ := h
  rw [decide_eq_true_eq] at h1
  rw [List.all_eq_true] at h2
  refine ⟨h1, fun p hp => ?_⟩
  have hh := h2 p hp
  rw [Bool.and_eq_true] at hh
  obtain ⟨ha, hb⟩ := hh
  rw [Bool.and_eq_true] at hb
  obtain ⟨hb1, hb2⟩ := hb
  rw [decide_eq_true_eq] at ha hb1
  rw [List.all_eq_true] at hb2
  refine ⟨ha, hb1, fun q hq => ?_⟩
  have := hb2 q hq
  rwa [decide_eq_true_eq] at this

/-- The inner loop preserves the frame relation to the original state. -/
theorem searchInner_rel {oid : Int} {f : ViewObject → ViewObject}
    (hid : ∀ o, f (f o) = f o) (db₀ : Db) (hWF : WFdb db₀ = true)
    (v : View) (hv : (toString v.Id, v) ∈ db₀.Views) :
    ∀ (objs : List (String × ViewObject)) (db : Db),
      (∀ q ∈ objs, q ∈ v.Objects) → DbRel oid f db₀ db →
      DbRel oid f db₀ (searchInner db v.Id objs oid f).1 := by
  intro objs
  induction objs with
  | nil => intro db _ hrel; exact hrel
  | cons q rest ih =>
      intro db hobjs hrel
      obtain ⟨kq, o⟩ := q
      unfold searchInner
      by_cases ho : o.Id = oid
      · rw [if_pos ho]
        cases hu : objUpdate db.Views (toString v.Id) (toString oid) f with
        | none => exact hrel
        | some V' =>
            refine ih _ (fun x hx => hobjs x (List.mem_cons_of_mem _ hx)) ?_
            obtain ⟨hvars, hga, hkb, hviews⟩ := hrel
            refine ⟨hvars, hga, hkb, ?_⟩
            rw [objUpdate_some hu]
            refine viewRel_update hid hviews ?_
            intro pv hpv hpvk qobj hqobj hqk
            obtain ⟨hnodV, hprops⟩ := WFdb_spec hWF
            have hpveq : pv = (toString v.Id, v) :=
              eq_of_mem_nodup_keys hnodV hpv hv hpvk
            rw [hpveq] at hqobj
            obtain ⟨_, hnodO, hkeys⟩ := hprops (toString v.Id, v) hv
            have hoin : (kq, o) ∈ v.Objects := hobjs (kq, o) (List.mem_cons_self _ _)
            have hokey : (kq, o).1 = toString oid := by
              have := hkeys (kq, o) hoin
              simpa [ho] using this
            have : qobj = (kq, o) :=
              eq_of_mem_nodup_keys hnodO hqobj hoin (by rw [hqk, hokey])
            rw [this]
            exact ho
      · rw [if_neg ho]
        exact ih db (fun x hx => hobjs x (List.mem_cons_of_mem _ hx)) hrel

/-- The outer loop preserves the frame relation to the original state. -/
theorem searchOuter_rel {oid : Int} {f : ViewObject → ViewObject}
    (hid : ∀ o, f (f o) = f o) (db₀ : Db) (hWF : WFdb db₀ = true) :
    ∀ (entries : List (String × View)) (db : Db),
      (∀ e ∈ entries, e ∈ db₀.Views) → DbRel oid f db₀ db →
      DbRel oid f db₀ (searchOuter db entries oid f).1 := by
  intro entries
  induction entries with
  | nil => intro db _ hrel; exact hrel
  | cons e rest ih =>
      intro db hentries hrel
      obtain ⟨k, v⟩ := e
      have hein : (k, v) ∈ db₀.Views := hentries (k, v) (List.mem_cons_self _ _)
      have hk : k = toString v.Id :=
        (WFdb_spec hWF).2 (k, v) hein |>.1
      have hv : (toString v.Id, v) ∈ db₀.Views := by rw [← hk]; exact hein
      unfold searchOuter
      cases hs : searchInner db v.Id v.Objects oid f with
      | mk db' ok =>
          have hrel' : DbRel oid f db₀ db' := by
            have := searchInner_rel hid db₀ hWF v hv v.Objects db
              (fun x hx => hx) hrel
            rw [hs] at this
            exact this
          cases ok with
          | true => exact ih db' (fun x hx => hentries x (List.mem_cons_of_mem _ hx)) hrel'
          | false => exact hrel'

/-- The shared search loop relates the result to the input state. -/
theorem mutateObjects_rel (oid : Int) (f : ViewObject → ViewObject)
    (hid : ∀ o, f (f o) = f o) (db : Db) (hWF : WFdb db = true) :
    DbRel oid f db (mutateObjects db oid f).1 :=
  searchOuter_rel hid db hWF db.Views db (fun _ hx => hx) (dbRel_refl oid f db)

theorem showObject_state (db : Db) (curView : View) (oid : Int)
    (skiplog : Bool) :
    (ShowObject db curView oid skiplog).1 =
      (mutateObjects db oid (fun o => { o with Visible := true })).1 := by
  unfold ShowObject
  rcases h : mutateObjects db oid (fun o => { o with Visible := true }) with ⟨db', ok⟩
  simp only [h]
  split_ifs <;> rfl

theorem allowTake_state (db : Db) (curView : View) (oid : Int) :
    (AllowTake db curView oid).1 =
      (mutateObjects db oid (fun o => { o with Takeable := true })).1 := by
  unfold AllowTake
  rcases h : mutateObjects db oid (fun o => { o with Takeable := true }) with ⟨db', ok⟩
  simp only [h]
  split_ifs <;> rfl

theorem disallowTake_state (db : Db) (curView : View) (oid : Int) :
    (DisallowTake db curView oid).1 =
      (mutateObjects db oid (fun o => { o with Takeable := false })).1 := by
  unfold DisallowTake
  rcases h : mutateObjects db oid (fun o => { o with Takeable := false }) with ⟨db', ok⟩
  simp only [h]
  split_ifs <;> rfl

/-- Claim C10: on a well-formed environment, `ShowObject`, `AllowTake` and
`DisallowTake` change at most the `Visible` (resp. `Takeable`) flag of
objects whose `Id` equals the argument: `Variables`, the global rule set
(hence every rule's `Enabled` flag), the key buffer, every view's
id/name/rule table, the dict skeleton, and every field of every
non-matching object are unchanged (`DbRel` states exactly this). -/
theorem objectMutators_frame (db : Db) (curView : View) (oid : Int)
    (skiplog : Bool) (hWF : WFdb db = true) :
    DbRel oid (fun o => { o with Visible := true }) db
      (ShowObject db curView oid skiplog).1 ∧
    DbRel oid (fun o => { o with Takeable := true }) db
      (AllowTake db curView oid).1 ∧
    DbRel oid (fun o => { o with Takeable := false }) db
      (DisallowTake db curView oid).1 := by
  refine ⟨?_, ?_, ?_⟩
  · rw [showObject_state]
    exact mutateObjects_rel oid (fun o => { o with Visible := true })
      (fun o => rfl) db hWF
  · rw [allowTake_state]
    exact mutateObjects_rel oid (fun o => { o with Takeable := true })
      (fun o => rfl) db hWF
  · rw [disallowTake_state]
    exact mutateObjects_rel oid (fun o => { o with Takeable := false })
      (fun o => rfl) db hWF

/-- Witness for C10 at the concrete sample environment. -/
theorem objectMutators_frame_witness :
    DbRel 4 (fun o => { o with Visible := true }) dbSample
      (ShowObject dbSample viewSample 4 false).1 ∧
    DbRel 4 (fun o => { o with Takeable := true }) dbSample
      (AllowTake dbSample viewSample 4).1 ∧
    DbRel 4 (fun o => { o with Takeable := false }) dbSample
      (DisallowTake dbSample viewSample 4).1 :=
  objectMutators_frame dbSample viewSample 4 false (by decide)

/-! ## Claim C3 — `TotalTimePassed` rules from `GlobalActions` are
disabled at scheduling time and fire at most once per session -/

theorem lookupKey_mem {α : Type} {l : List (String × α)} {k : String}
    {v : α} (h : lookupKey l k = some v) : (k, v) ∈ l := by
  unfold lookupKey at h
  cases hf : l.find? (fun p => p.1 = k) with
  | none => rw [hf] at h; cases h
  | some p =>
      rw [hf] at h
      have hk := List.find?_some hf
      have hm := List.mem_of_find?_eq_some hf
      rw [decide_eq_true_eq] at hk
      obtain rfl := Option.some.inj h
      rw [← hk]
      exact hm

theorem lookupKey_isSome_of_mem_keys {α : Type} {l : List (String × α)}
    {k : String} (h : k ∈ l.map Prod.fst) : (lookupKey l k).isSome = true := by
  unfold lookupKey
  cases hf : l.find? (fun p => p.1 = k) with
  | some p => rfl
  | none =>
      obtain ⟨p, hp, hpk⟩ := List.mem_map.mp h
      have := List.find?_eq_none.mp hf p hp
      simp [hpk] at this

theorem mem_values_of_lookupKey {α : Type} {l : List (String × α)}
    {k : String} {v : α} (h : lookupKey l k = some v) :
    v ∈ l.map Prod.snd :=
  List.mem_map.mpr ⟨(k, v), lookupKey_mem h, rfl⟩

theorem lookupKey_cons_hit {α : Type} {p : String × α} {t : List (String × α)}
    {k : String} (h : p.1 = k) : lookupKey (p :: t) k = some p.2 := by
  unfold lookupKey
  rw [List.find?_cons_of_pos _ (by simp [h])]

theorem lookupKey_cons_miss {α : Type} {p : String × α} {t : List (String × α)}
    {k : String} (h : ¬ p.1 = k) : lookupKey (p :: t) k = lookupKey t k := by
  unfold lookupKey
  rw [List.find?_cons_of_neg _ (by simp [h])]

/-- Lookup through a key-conditional value map. -/
theorem lookupKey_condMap {α : Type} (l : List (String × α)) (k₀ k : String)
    (g : α → α) :
    lookupKey (l.map (fun p => if p.1 = k₀ then (p.1, g p.2) else p)) k =
      if k = k₀ then (lookupKey l k).map g else lookupKey l k := by
  induction l with
  | nil => by_cases hk : k = k₀ <;> simp [lookupKey, hk]
  | cons p t ih =>
      rw [List.map_cons]
      by_cases hp : p.1 = k₀
      · rw [if_pos hp]
        by_cases hk : p.1 = k
        · have hkk : k = k₀ := by rw [← hk, hp]
          rw [lookupKey_cons_hit (show ((p.1, g p.2) : String × α).1 = k from hk),
            if_pos hkk, lookupKey_cons_hit hk]
          rfl
        · by_cases hkk : k = k₀
          · exact absurd (hp.trans hkk.symm) hk
          · rw [lookupKey_cons_miss
              (show ¬ ((p.1, g p.2) : String × α).1 = k from hk), ih,
              if_neg hkk, if_neg hkk, lookupKey_cons_miss hk]
      · rw [if_neg hp]
        by_cases hk : p.1 = k
        · have hkk : ¬ k = k₀ := fun he => hp (hk.trans he)
          rw [lookupKey_cons_hit hk, if_neg hkk, lookupKey_cons_hit hk]
        · rw [lookupKey_cons_miss hk, ih]
          by_cases hkk : k = k₀
          · rw [if_pos hkk, if_pos hkk, lookupKey_cons_miss hk]
          · rw [if_neg hkk, if_neg hkk, lookupKey_cons_miss hk]

theorem WFgaP_of_WFga {ga : List (String × Rule)} (h : WFga ga = true) :
    WFgaP ga := by
  unfold WFga at h
  rw [Bool.and_eq_true] at h
  intro p hp
  have := (List.all_eq_true.mp h.2) p hp
  rwa [decide_eq_true_eq] at this

theorem disableRule_eq {ga ga' : List (String × Rule)} {k₀ : String}
    (h : disableRule ga k₀ = some ga') : ga' = ga.map (disableEntry k₀) := by
  unfold disableRule at h
  by_cases hs : (lookupKey ga k₀).isSome = true
  · rw [if_pos hs] at h
    exact (Option.some.inj h).symm
  · rw [if_neg hs] at h
    cases h

theorem disable_keys (ga : List (String × Rule)) (k₀ : String) :
    (ga.map (disableEntry k₀)).map Prod.fst = ga.map Prod.fst := by
  rw [List.map_map]
  apply List.map_congr_left
  intro p _
  unfold disableEntry
  by_cases hp : p.1 = k₀ <;> simp [hp]

theorem disable_WFgaP {ga : List (String × Rule)} {k₀ : String}
    (hWF : WFgaP ga) : WFgaP (ga.map (disableEntry k₀)) := by
  intro p' hp'
  obtain ⟨p, hp, rfl⟩ := List.mem_map.mp hp'
  have hw := hWF p hp
  unfold disableEntry
  by_cases hk : p.1 = k₀
  · rw [if_pos hk]
    exact hw
  · rw [if_neg hk]
    exact hw

/-- Effect of the disable map on `enabledAtKey`. -/
theorem disable_enabledAtKey (ga : List (String × Rule)) (k₀ k : String) :
    enabledAtKey (ga.map (disableEntry k₀)) k =
      if k = k₀ then false else enabledAtKey ga k := by
  unfold enabledAtKey
  have hm : ga.map (disableEntry k₀) = ga.map
      (fun p => if p.1 = k₀ then (p.1, { p.2 with Enabled := false }) else p) := rfl
  rw [hm, lookupKey_condMap ga k₀ k (fun r => { r with Enabled := false })]
  by_cases hk : k = k₀
  · rw [if_pos hk, if_pos hk]
    cases lookupKey ga k <;> rfl
  · rw [if_neg hk, if_neg hk]

/-- Injectivity helper for `some`-wrapped pairs. -/
theorem pair_some_inj {α β : Type} {a a' : α} {b b' : β}
    (h : (some (a, b) : Option (α × β)) = some (a', b')) : a = a' ∧ b = b' := by
  cases h
  exact ⟨rfl, rfl⟩

/-- One step of the global half of the `start_timers` loop: the state can
only lose enablement; a global `TotalTimePassed` registration consumes the
enablement of its own key; registered keys are existing keys. -/
theorem procTimer_global_step {ga ga' : List (String × Rule)} {r : Rule}
    {te ve : ℚ} {evs : List Sched} {k₀ : String}
    (hWF : WFgaP ga)
    (hlive : lookupKey ga k₀ = some r)
    (hproc : procTimerRule ga .globalSrc r te ve = some (ga', evs)) :
    ga'.map Prod.fst = ga.map Prod.fst ∧ WFgaP ga' ∧
    (∀ k, cntKey evs k + bval (enabledAtKey ga' k) ≤ bval (enabledAtKey ga k)) ∧
    (∀ e ∈ evs, e.source = SchedSource.globalSrc → e.trig = "TotalTimePassed" →
      toString e.ruleId ∈ ga.map Prod.fst) := by
  have hkey : k₀ = toString r.Id := hWF (k₀, r) (lookupKey_mem hlive)
  have henb : enabledAtKey ga k₀ = r.Enabled := by
    unfold enabledAtKey; rw [hlive]
  unfold procTimerRule at hproc
  by_cases hen : (!r.Enabled) = true
  · rw [if_pos hen] at hproc
    obtain ⟨rfl, rfl⟩ := pair_some_inj hproc
    exact ⟨rfl, hWF, fun k => by simp [cntKey], by simp⟩
  · rw [if_neg hen] at hproc
    rw [Bool.not_eq_true', Bool.not_eq_false] at hen
    cases htr : valid_api_call r.Trigger with
    | none =>
        rw [htr] at hproc
        obtain ⟨rfl, rfl⟩ := pair_some_inj hproc
        exact ⟨rfl, hWF, fun k => by simp [cntKey], by simp⟩
    | some fp =>
        obtain ⟨func, params⟩ := fp
        simp only [htr] at hproc
        by_cases hguard : (valid_api_call r.Action).isSome = true ∧
            ((valid_api_call r.Condition).isSome = true ∨ r.Condition = "")
        · rw [if_pos hguard] at hproc
          by_cases hfn : func = "TotalTimePassed"
          · rw [if_pos hfn] at hproc
            cases hfl : pyFloatQ (params.headD "") with
            | none => rw [hfl] at hproc; cases hproc
            | some t =>
                simp only [hfl] at hproc
                have hmem : r ∈ ga.map Prod.snd := mem_values_of_lookupKey hlive
                rw [if_pos hmem] at hproc
                cases hdis : disableRule ga (toString r.Id) with
                | none => rw [hdis] at hproc; cases hproc
                | some ga₁ =>
                    simp only [hdis] at hproc
                    obtain ⟨h1, h2⟩ := pair_some_inj hproc
                    subst h1
                    subst h2
                    rw [disableRule_eq hdis]
                    refine ⟨disable_keys ga (toString r.Id),
                      disable_WFgaP hWF, ?_, ?_⟩
                    · intro k
                      rw [disable_enabledAtKey]
                      by_cases hk : k = toString r.Id
                      · rw [if_pos hk]
                        have hc : cntKey [(⟨.globalSrc, func, r.Id,
                            r.Condition, r.Action,
                            if te ≥ t then 0 else qSub t te⟩ : Sched)] k = 1 := by
                          unfold cntKey
                          rw [List.countP_cons]
                          simp [hfn, hk]
                        rw [hc]
                        have hone : enabledAtKey ga k = true := by
                          rw [hk, ← hkey, henb, hen]
                        rw [hone]
                        simp [bval]
                      · rw [if_neg hk]
                        have hc : cntKey [(⟨.globalSrc, func, r.Id,
                            r.Condition, r.Action,
                            if te ≥ t then 0 else qSub t te⟩ : Sched)] k = 0 := by
                          unfold cntKey
                          rw [List.countP_cons]
                          simp [hk, eq_comm]
                        rw [hc]
                        simp
                    · intro e he _ _
                      have he2 : e = ⟨.globalSrc, func, r.Id, r.Condition,
                          r.Action, if te ≥ t then 0 else qSub t te⟩ := by
                        simpa using he
                      rw [he2, ← hkey]
                      exact List.mem_map.mpr ⟨(k₀, r), lookupKey_mem hlive, rfl⟩
          · rw [if_neg hfn] at hproc
            by_cases hfv : func = "ViewTimePassed"
            · rw [if_pos hfv] at hproc
              cases hfl : pyFloatQ (params.headD "") with
              | none => rw [hfl] at hproc; cases hproc
              | some t =>
                  simp only [hfl] at hproc
                  obtain ⟨h1, h2⟩ := pair_some_inj hproc
                  subst h1
                  subst h2
                  refine ⟨rfl, hWF, ?_, ?_⟩
                  · intro k
                    have hc : cntKey [(⟨.globalSrc, func, r.Id, r.Condition,
                        r.Action, if ve ≥ t then 0 else qSub t ve⟩ : Sched)] k
                        = 0 := by
                      unfold cntKey
                      rw [List.countP_cons]
                      simp [hfv]
                    rw [hc]
                    simp
                  · intro e he _ htrig
                    have he2 : e = ⟨.globalSrc, func, r.Id, r.Condition,
                        r.Action, if ve ≥ t then 0 else qSub t ve⟩ := by
                      simpa using he
                    rw [he2] at htrig
                    simp [hfv] at htrig
            · rw [if_neg hfv] at hproc
              obtain ⟨rfl, rfl⟩ := pair_some_inj hproc
              exact ⟨rfl, hWF, fun k => by simp [cntKey], by simp⟩
        · rw [if_neg hguard] at hproc
          obtain ⟨rfl, rfl⟩ := pair_some_inj hproc
          exact ⟨rfl, hWF, fun k => by simp [cntKey], by simp⟩

theorem cntKey_append (a b : List Sched) (k : String) :
    cntKey (a ++ b) k = cntKey a k + cntKey b k := by
  unfold cntKey
  exact List.countP_append _ _ _

theorem bval_le_one (b : Bool) : bval b ≤ 1 := by
  cases b <;> simp [bval]

theorem bval_eq_zero {b : Bool} (h : bval b = 0) : b = false := by
  cases b
  · rfl
  · simp [bval] at h

/-- One step of the view half of the loop: enablement only decreases and
every registration carries the view source tag. -/
theorem procTimer_view_step {ga ga' : List (String × Rule)} {r : Rule}
    {te ve : ℚ} {evs : List Sched}
    (hWF : WFgaP ga)
    (hproc : procTimerRule ga .viewSrc r te ve = some (ga', evs)) :
    ga'.map Prod.fst = ga.map Prod.fst ∧ WFgaP ga' ∧
    (∀ k, bval (enabledAtKey ga' k) ≤ bval (enabledAtKey ga k)) ∧
    (∀ e ∈ evs, e.source = SchedSource.viewSrc) := by
  unfold procTimerRule at hproc
  by_cases hen : (!r.Enabled) = true
  · rw [if_pos hen] at hproc
    obtain ⟨rfl, rfl⟩ := pair_some_inj hproc
    exact ⟨rfl, hWF, fun k => le_refl _, by simp⟩
  · rw [if_neg hen] at hproc
    cases htr : valid_api_call r.Trigger with
    | none =>
        rw [htr] at hproc
        obtain ⟨rfl, rfl⟩ := pair_some_inj hproc
        exact ⟨rfl, hWF, fun k => le_refl _, by simp⟩
    | some fp =>
        obtain ⟨func, params⟩ := fp
        simp only [htr] at hproc
        by_cases hguard : (valid_api_call r.Action).isSome = true ∧
            ((valid_api_call r.Condition).isSome = true ∨ r.Condition = "")
        · rw [if_pos hguard] at hproc
          by_cases hfn : func = "TotalTimePassed"
          · rw [if_pos hfn] at hproc
            cases hfl : pyFloatQ (params.headD "") with
            | none => rw [hfl] at hproc; cases hproc
            | some t =>
                simp only [hfl] at hproc
                by_cases hmem : r ∈ ga.map Prod.snd
                · rw [if_pos hmem] at hproc
                  cases hdis : disableRule ga (toString r.Id) with
                  | none => rw [hdis] at hproc; cases hproc
                  | some ga₁ =>
                      simp only [hdis] at hproc
                      obtain ⟨h1, h2⟩ := pair_some_inj hproc
                      subst h1
                      subst h2
                      rw [disableRule_eq hdis]
                      refine ⟨disable_keys _ _, disable_WFgaP hWF, ?_, ?_⟩
                      · intro k
                        rw [disable_enabledAtKey]
                        by_cases hk : k = toString r.Id
                        · rw [if_pos hk]
                          simp [bval]
                        · rw [if_neg hk]
                      · intro e he
                        rw [List.mem_singleton.mp he]
                · rw [if_neg hmem] at hproc
                  obtain ⟨rfl, rfl⟩ := pair_some_inj hproc
                  refine ⟨rfl, hWF, fun k => le_refl _, ?_⟩
                  intro e he
                  rw [List.mem_singleton.mp he]
          · rw [if_neg hfn] at hproc
            by_cases hfv : func = "ViewTimePassed"
            · rw [if_pos hfv] at hproc
              cases hfl : pyFloatQ (params.headD "") with
              | none => rw [hfl] at hproc; cases hproc
              | some t =>
                  simp only [hfl] at hproc
                  obtain ⟨rfl, rfl⟩ := pair_some_inj hproc
                  refine ⟨rfl, hWF, fun k => le_refl _, ?_⟩
                  intro e he
                  rw [List.mem_singleton.mp he]
            · rw [if_neg hfv] at hproc
              obtain ⟨rfl, rfl⟩ := pair_some_inj hproc
              exact ⟨rfl, hWF, fun k => le_refl _, by simp⟩
        · rw [if_neg hguard] at hproc
          obtain ⟨rfl, rfl⟩ := pair_some_inj hproc
          exact ⟨rfl, hWF, fun k => le_refl _, by simp⟩

/-- Folding the global half of the chain. -/
theorem globalPhase_bound {te ve : ℚ} :
    ∀ (entries : List (String × Rule)) (ga : List (String × Rule)),
      WFgaP ga → (∀ p ∈ entries, p.1 ∈ ga.map Prod.fst) →
      ∀ {ga' : List (String × Rule)} {evs : List Sched},
      timersGlobalPhase ga entries te ve = some (ga', evs) →
      ga'.map Prod.fst = ga.map Prod.fst ∧ WFgaP ga' ∧
      (∀ k, cntKey evs k + bval (enabledAtKey ga' k) ≤
        bval (enabledAtKey ga k)) ∧
      (∀ e ∈ evs, e.source = SchedSource.globalSrc →
        e.trig = "TotalTimePassed" → toString e.ruleId ∈ ga.map Prod.fst) := by
  intro entries
  induction entries with
  | nil =>
      intro ga hWF _ ga' evs h
      unfold timersGlobalPhase at h
      obtain ⟨rfl, rfl⟩ := pair_some_inj h
      exact ⟨rfl, hWF, fun k => by simp [cntKey], by simp⟩
  | cons entry rest ih =>
      intro ga hWF hkeys ga' evs h
      obtain ⟨k₀, r₀⟩ := entry
      unfold timersGlobalPhase at h
      have hks : k₀ ∈ ga.map Prod.fst := hkeys (k₀, r₀) (List.mem_cons_self _ _)
      have hsome := lookupKey_isSome_of_mem_keys hks
      cases hlook : lookupKey ga k₀ with
      | none => rw [hlook] at hsome; simp at hsome
      | some r =>
          rw [hlook] at h
          simp only [Option.getD_some] at h
          cases hproc : procTimerRule ga .globalSrc r te ve with
          | none => rw [hproc] at h; cases h
          | some pr =>
              obtain ⟨ga₁, evs₁⟩ := pr
              simp only [hproc] at h
              cases hrest : timersGlobalPhase ga₁ rest te ve with
              | none => rw [hrest] at h; cases h
              | some pr2 =>
                  obtain ⟨ga₂, evs₂⟩ := pr2
                  simp only [hrest] at h
                  obtain ⟨h1, h2⟩ := pair_some_inj h
                  subst h1
                  subst h2
                  obtain ⟨hk1, hWF₁, hb1, hkeys1⟩ :=
                    procTimer_global_step hWF hlook hproc
                  obtain ⟨hk2, hWF₂, hb2, hkeys2⟩ :=
                    ih ga₁ hWF₁ (fun p hp => by
                      rw [hk1]
                      exact hkeys p (List.mem_cons_of_mem _ hp)) hrest
                  refine ⟨by rw [hk2, hk1], hWF₂, ?_, ?_⟩
                  · intro k
                    have hx := hb1 k
                    have hy := hb2 k
                    rw [cntKey_append]
                    omega
                  · intro e he hsrc htrig
                    rcases List.mem_append.mp he with hm | hm
                    · exact hkeys1 e hm hsrc htrig
                    · rw [← hk1]
                      exact hkeys2 e hm hsrc htrig

/-- Folding the view half of the chain. -/
theorem viewPhase_bound {te ve : ℚ} :
    ∀ (entries : List (String × Rule)) (ga : List (String × Rule)),
      WFgaP ga →
      ∀ {ga' : List (String × Rule)} {evs : List Sched},
      timersViewPhase ga entries te ve = some (ga', evs) →
      ga'.map Prod.fst = ga.map Prod.fst ∧ WFgaP ga' ∧
      (∀ k, bval (enabledAtKey ga' k) ≤ bval (enabledAtKey ga k)) ∧
      (∀ e ∈ evs, e.source = SchedSource.viewSrc) := by
  intro entries
  induction entries with
  | nil =>
      intro ga hWF ga' evs h
      unfold timersViewPhase at h
      obtain ⟨rfl, rfl⟩ := pair_some_inj h
      exact ⟨rfl, hWF, fun k => le_refl _, by simp⟩
  | cons entry rest ih =>
      intro ga hWF ga' evs h
      obtain ⟨k₀, r₀⟩ := entry
      unfold timersViewPhase at h
      cases hproc : procTimerRule ga .viewSrc r₀ te ve with
      | none => rw [hproc] at h; cases h
      | some pr =>
          obtain ⟨ga₁, evs₁⟩ := pr
          simp only [hproc] at h
          cases hrest : timersViewPhase ga₁ rest te ve with
          | none => rw [hrest] at h; cases h
          | some pr2 =>
              obtain ⟨ga₂, evs₂⟩ := pr2
              simp only [hrest] at h
              obtain ⟨h1, h2⟩ := pair_some_inj h
              subst h1
              subst h2
              obtain ⟨hk1, hWF₁, hb1, hsrc1⟩ := procTimer_view_step hWF hproc
              obtain ⟨hk2, hWF₂, hb2, hsrc2⟩ := ih ga₁ hWF₁ hrest
              refine ⟨by rw [hk2, hk1], hWF₂, ?_, ?_⟩
              · intro k
                have hx := hb1 k
                have hy := hb2 k
                omega
              · intro e he
                rcases List.mem_append.mp he with hm | hm
                · exact hsrc1 e hm
                · exact hsrc2 e hm

theorem cntKey_of_viewOnly {evs : List Sched} (k : String)
    (h : ∀ e ∈ evs, e.source = SchedSource.viewSrc) : cntKey evs k = 0 := by
  unfold cntKey
  rw [List.countP_eq_zero]
  intro e he
  have := h e he
  simp [this]

/-- Per-call accounting for `start_timers`. -/
theorem start_timers_bound {ga vas ga' : List (String × Rule)}
    {evs : List Sched} {te ve : ℚ}
    (hWF : WFgaP ga)
    (h : start_timers ga vas te ve = some (ga', evs)) :
    ga'.map Prod.fst = ga.map Prod.fst ∧ WFgaP ga' ∧
    (∀ k, cntKey evs k + bval (enabledAtKey ga' k) ≤
      bval (enabledAtKey ga k)) ∧
    (∀ e ∈ evs, e.source = SchedSource.globalSrc →
      e.trig = "TotalTimePassed" → toString e.ruleId ∈ ga.map Prod.fst) := by
  unfold start_timers at h
  cases h1 : timersGlobalPhase ga ga te ve with
  | none => rw [h1] at h; cases h
  | some pr =>
      obtain ⟨ga₁, evs₁⟩ := pr
      simp only [h1] at h
      cases h2 : timersViewPhase ga₁ vas te ve with
      | none => rw [h2] at h; cases h
      | some pr2 =>
          obtain ⟨ga₂, evs₂⟩ := pr2
          simp only [h2] at h
          obtain ⟨hg1, hg2⟩ := pair_some_inj h
          subst hg1
          subst hg2
          obtain ⟨hk1, hWF₁, hb1, hkeys1⟩ := globalPhase_bound ga ga hWF
            (fun p hp => List.mem_map_of_mem Prod.fst hp) h1
          obtain ⟨hk2, hWF₂, hb2, hsrc2⟩ := viewPhase_bound vas ga₁ hWF₁ h2
          refine ⟨by rw [hk2, hk1], hWF₂, ?_, ?_⟩
          · intro k
            have hx := hb1 k
            have hy := hb2 k
            rw [cntKey_append, cntKey_of_viewOnly k hsrc2]
            omega
          · intro e he hsrc htrig
            rcases List.mem_append.mp he with hm | hm
            · exact hkeys1 e hm hsrc htrig
            · have := hsrc2 e hm
              rw [hsrc] at this
              cases this

/-- Session accounting: enablement only decreases, registrations consume
it. -/
theorem runSession_bound :
    ∀ (steps : List (List (String × Rule) × ℚ × ℚ))
      (ga : List (String × Rule)), WFgaP ga →
      ∀ {ga_f : List (String × Rule)} {evs : List Sched},
      runSession ga steps = some (ga_f, evs) →
      ∀ k, cntKey evs k + bval (enabledAtKey ga_f k) ≤
        bval (enabledAtKey ga k) := by
  intro steps
  induction steps with
  | nil =>
      intro ga hWF ga_f evs h k
      unfold runSession at h
      obtain ⟨rfl, rfl⟩ := pair_some_inj h
      simp [cntKey]
  | cons step rest ih =>
      intro ga hWF ga_f evs h k
      obtain ⟨vas, te, ve⟩ := step
      unfold runSession at h
      cases h1 : start_timers ga vas te ve with
      | none => rw [h1] at h; cases h
      | some pr =>
          obtain ⟨ga₁, evs₁⟩ := pr
          simp only [h1] at h
          cases h2 : runSession ga₁ rest with
          | none => rw [h2] at h; cases h
          | some pr2 =>
              obtain ⟨ga₂, evs₂⟩ := pr2
              simp only [h2] at h
              obtain ⟨hg1, hg2⟩ := pair_some_inj h
              subst hg1
              subst hg2
              obtain ⟨hk1, hWF₁, hb1, _⟩ := start_timers_bound hWF h1
              have hy := ih ga₁ hWF₁ h2 k
              have hx := hb1 k
              rw [cntKey_append]
              omega

/-- Claim C3: a `TotalTimePassed` rule from `GlobalActions` is disabled in
the very `start_timers` call that schedules it (the scheduled action has
not executed yet — it is merely a pending registration in the returned
list); and across any session (any sequence of view entries), such a rule
is scheduled at most once. -/
theorem totalTimePassed_disable_once :
    (∀ (ga vas : List (String × Rule)) (te ve : ℚ)
      (ga' : List (String × Rule)) (evs : List Sched),
      WFga ga = true → start_timers ga vas te ve = some (ga', evs) →
      ∀ e ∈ evs, e.source = SchedSource.globalSrc →
        e.trig = "TotalTimePassed" →
        ∃ r', lookupKey ga' (toString e.ruleId) = some r' ∧
          r'.Enabled = false) ∧
    (∀ (ga : List (String × Rule))
      (steps : List (List (String × Rule) × ℚ × ℚ))
      (ga_f : List (String × Rule)) (evs : List Sched),
      WFga ga = true → runSession ga steps = some (ga_f, evs) →
      ∀ i : Int, evs.countP (fun e =>
        e.source = SchedSource.globalSrc ∧ e.trig = "TotalTimePassed" ∧
          e.ruleId = i) ≤ 1) := by
  constructor
  · intro ga vas te ve ga' evs hWF h e he hsrc htrig
    obtain ⟨hk1, _, hb, hkeys⟩ := start_timers_bound (WFgaP_of_WFga hWF) h
    have hkin : toString e.ruleId ∈ ga.map Prod.fst := hkeys e he hsrc htrig
    have hcnt : 0 < cntKey evs (toString e.ruleId) := by
      unfold cntKey
      rw [List.countP_pos_iff]
      exact ⟨e, he, by simp [hsrc, htrig]⟩
    have hx := hb (toString e.ruleId)
    have hle := bval_le_one (enabledAtKey ga (toString e.ruleId))
    have hz : bval (enabledAtKey ga' (toString e.ruleId)) = 0 := by omega
    have hfalse := bval_eq_zero hz
    have hsome : (lookupKey ga' (toString e.ruleId)).isSome = true := by
      apply lookupKey_isSome_of_mem_keys
      rw [hk1]
      exact hkin
    cases hlk : lookupKey ga' (toString e.ruleId) with
    | none => rw [hlk] at hsome; simp at hsome
    | some r' =>
        refine ⟨r', rfl, ?_⟩
        unfold enabledAtKey at hfalse
        rw [hlk] at hfalse
        exact hfalse
  · intro ga steps ga_f evs hWF h i
    have hb := runSession_bound steps ga (WFgaP_of_WFga hWF) h (toString i)
    have hmono : evs.countP (fun e =>
        e.source = SchedSource.globalSrc ∧ e.trig = "TotalTimePassed" ∧
          e.ruleId = i) ≤ cntKey evs (toString i) := by
      unfold cntKey
      apply List.countP_mono_left
      intro e _ hpe
      rw [decide_eq_true_eq] at hpe
      obtain ⟨h1, h2, h3⟩ := hpe
      rw [decide_eq_true_eq]
      exact ⟨h1, h2, by rw [h3]⟩
    have hle := bval_le_one (enabledAtKey ga (toString i))
    omega

/-- Witness for C3: one global `TotalTimePassed(30)` rule, a session of
two view entries; the first call schedules and disables it, the second
schedules nothing. -/
theorem totalTimePassed_disable_once_witness :
    (∃ r', lookupKey gaGdis (toString evG.ruleId) = some r' ∧
      r'.Enabled = false) ∧
    ([evG].countP (fun e =>
      e.source = SchedSource.globalSrc ∧ e.trig = "TotalTimePassed" ∧
        e.ruleId = 3) ≤ 1) :=
  ⟨totalTimePassed_disable_once.1 gaG [] 0 0 gaGdis [evG]
      (by decide) (by decide) evG (by decide) rfl rfl,
   totalTimePassed_disable_once.2 gaG [([], 0, 0), ([], 50, 0)] gaGdis [evG]
      (by decide) (by decide) 3⟩

/-! ## Claim C9 — `func_str_parts` on empty parameter lists -/

/-- Counterexample for C9: `func_str_parts "OpenDoor()"` does not return
an empty argument sequence; it returns the singleton list holding the
empty string (`regex.split` of an empty text yields `[""]`). -/
theorem func_str_parts_empty_not_nil :
    func_str_parts "OpenDoor()" = some ("OpenDoor", [""]) ∧
    func_str_parts "OpenDoor()" ≠ some ("OpenDoor", []) := by
  exact ⟨by decide, by decide⟩

theorem dropWhile_forall_false {α : Type} {p : α → Bool} :
    ∀ {l : List α}, (∀ c ∈ l, p c = false) → l.dropWhile p = l := by
  intro l
  induction l with
  | nil => intro _; rfl
  | cons c rest _ =>
      intro h
      have hc := h c (List.mem_cons_self _ _)
      simp [List.dropWhile, hc]

theorem pyStrip_eq_self {l : List Char}
    (h : ∀ c ∈ l, isSpaceChar c = false) : pyStrip l = l := by
  unfold pyStrip
  rw [dropWhile_forall_false h]
  rw [dropWhile_forall_false (fun c hc => h c (List.mem_reverse.mp hc))]
  exact List.reverse_reverse l

theorem takeWhile_append_all {α : Type} {p : α → Bool} {l₁ l₂ : List α}
    (h : ∀ c ∈ l₁, p c = true) :
    (l₁ ++ l₂).takeWhile p = l₁ ++ l₂.takeWhile p := by
  induction l₁ with
  | nil => rfl
  | cons c rest ih =>
      have hc := h c (List.mem_cons_self _ _)
      have := ih (fun x hx => h x (List.mem_cons_of_mem _ hx))
      simp [List.takeWhile_cons, hc, this]

theorem dropWhile_append_all {α : Type} {p : α → Bool} {l₁ l₂ : List α}
    (h : ∀ c ∈ l₁, p c = true) :
    (l₁ ++ l₂).dropWhile p = l₂.dropWhile p := by
  induction l₁ with
  | nil => rfl
  | cons c rest ih =>
      have hc := h c (List.mem_cons_self _ _)
      have := ih (fun x hx => h x (List.mem_cons_of_mem _ hx))
      simp [List.dropWhile, hc, this]

theorem word_not_space {c : Char} (h : isWordChar c = true) :
    isSpaceChar c = false := by
  by_contra hs
  rw [Bool.not_eq_false] at hs
  have : c = ' ' ∨ c = '\t' ∨ c = '\n' ∨ c = '\r' ∨ c = '\x0b' ∨ c = '\x0c' := by
    simpa [isSpaceChar, or_assoc] using hs
  rcases this with rfl | rfl | rfl | rfl | rfl | rfl <;> exact absurd h (by decide)

theorem word_not_special {c : Char} (h : isWordChar c = true) :
    c ≠ '\\' ∧ c ≠ '"' ∧ c ≠ '\'' ∧ c ≠ '[' ∧ c ≠ ']' := by
  refine ⟨?_, ?_, ?_, ?_, ?_⟩ <;> (rintro rfl; exact absurd h (by decide))

theorem replBrChars_plain {L R : List Char} :
    ∀ {l : List Char} (sq dq : Bool),
      (∀ c ∈ l, c ≠ '\\' ∧ c ≠ '"' ∧ c ≠ '\'' ∧ c ≠ '[' ∧ c ≠ ']') →
      replBrChars L R l sq dq = l := by
  intro l
  induction l with
  | nil => intro sq dq _; rfl
  | cons c rest ih =>
      intro sq dq h
      obtain ⟨h1, h2, h3, h4, h5⟩ := h c (List.mem_cons_self _ _)
      have hrest := fun x hx => h x (List.mem_cons_of_mem c hx)
      unfold replBrChars
      rw [if_neg h1, if_neg (by simp [h2]), if_neg (by simp [h3]),
        if_neg (by simp [h4]), if_neg (by simp [h5])]
      rw [ih sq dq hrest]

theorem matchFuncPattern_name_parens (nm : List Char) (hne : nm ≠ [])
    (hw : ∀ c ∈ nm, isWordChar c = true) :
    matchFuncPattern (nm ++ ['(', ')']) = some (nm, []) := by
  unfold matchFuncPattern
  rw [takeWhile_append_all hw, dropWhile_append_all hw]
  have ht : List.takeWhile isWordChar ['(', ')'] = [] := by decide
  have hd : List.dropWhile isWordChar ['(', ')'] = ['(', ')'] := by decide
  rw [ht, hd, List.append_nil]
  have hsp : List.dropWhile isSpaceChar ['(', ')'] = ['(', ')'] := by decide
  rw [hsp]
  simp [hne]

/-- Amended C9, part 1: for every nonempty word-character function name,
`func_str_parts` on `name()` yields the name together with the singleton
list holding the empty raw-argument string (which the downstream
constant-value check treats as vacuously safe). -/
theorem func_str_parts_name_parens (nm : List Char) (hne : nm ≠ [])
    (hw : ∀ c ∈ nm, isWordChar c = true) :
    func_str_parts ⟨nm ++ ['(', ')']⟩ = some (⟨nm⟩, [""]) := by
  have hall : ∀ c ∈ nm ++ ['(', ')'], isSpaceChar c = false := by
    intro c hc
    rcases List.mem_append.mp hc with h | h
    · exact word_not_space (hw c h)
    · have h2 : c = '(' ∨ c = ')' := by simpa using h
      rcases h2 with rfl | rfl
      · rfl
      · rfl
  have hplain : ∀ c ∈ nm ++ ['(', ')'],
      c ≠ '\\' ∧ c ≠ '"' ∧ c ≠ '\'' ∧ c ≠ '[' ∧ c ≠ ']' := by
    intro c hc
    rcases List.mem_append.mp hc with h | h
    · exact word_not_special (hw c h)
    · have h2 : c = '(' ∨ c = ')' := by simpa using h
      rcases h2 with rfl | rfl
      · exact ⟨by decide, by decide, by decide, by decide, by decide⟩
      · exact ⟨by decide, by decide, by decide, by decide, by decide⟩
  have h1 : pyStrip (String.toList ⟨nm ++ ['(', ')']⟩) = nm ++ ['(', ')'] :=
    pyStrip_eq_self hall
  have h2 : replBrChars "\"(LEFT) ".toList " (RIGHT)\"".toList
      (nm ++ ['(', ')']) false false = nm ++ ['(', ')'] :=
    replBrChars_plain false false hplain
  have h3 := matchFuncPattern_name_parens nm hne hw
  simp only [func_str_parts, h1, h2, h3]
  rfl

/-- Claim C9, amended and proved: `name()` parses to the name plus one
empty raw argument (not an empty sequence), and whitespace after a
separating comma is stripped from raw arguments while whitespace before
a comma is kept. -/
theorem func_str_parts_empty_and_space_behavior :
    (∀ nm : List Char, nm ≠ [] → (∀ c ∈ nm, isWordChar c = true) →
       func_str_parts ⟨nm ++ ['(', ')']⟩ = some (⟨nm⟩, [""])) ∧
    func_str_parts "f(1 , 2)" = some ("f", ["1 ", "2"]) :=
  ⟨func_str_parts_name_parens, by decide⟩

/-- Witness for amended C9 at the docstring's own example name. -/
theorem func_str_parts_empty_and_space_behavior_witness :
    func_str_parts "OpenDoor()" = some ("OpenDoor", [""]) ∧
    func_str_parts "f(1 , 2)" = some ("f", ["1 ", "2"]) :=
  ⟨func_str_parts_empty_and_space_behavior.1 "OpenDoor".toList
      (by decide) (by decide),
   func_str_parts_empty_and_space_behavior.2⟩

end GemsRun
